import Mathlib

/-!
# Verification of the protoc-gen-doc document-model builder

A shallow embedding of `src/main.cpp` (the Qt/protobuf documentation
generator plugin) together with proofs about the claims of the
specification.  Strings are modelled as Lean `String` (a list of
characters); `QString` operations used by the source are re-implemented
on the character list (`mid` is `drop`/`take`, `trimmed` strips
`QChar::isSpace` characters from both ends, etc.).  Machine text here is
ASCII, where `QString`'s UTF-16 ordering and Lean's code-point ordering
agree.
-/

namespace ProtocGenDoc

/-- The characters accepted by `QChar::isSpace` in the ASCII range:
space, tab, newline, vertical tab, form feed, carriage return. -/
def isQSpace (c : Char) : Bool :=
  c = ' ' || c = '\t' || c = '\n' || c = '\x0b' || c = '\x0c' || c = '\r'

/-- `QString::startsWith` for a literal prefix. -/
def qStartsWith (s pre : String) : Bool :=
  pre.data.isPrefixOf s.data

/-- `QString::mid(n)`: the suffix starting at character position `n`. -/
def qDrop (s : String) (n : Nat) : String :=
  ⟨s.data.drop n⟩

/-- `QString::mid(pos, n)` with a non-negative length `n`. -/
def qMid (s : String) (pos n : Nat) : String :=
  ⟨(s.data.drop pos).take n⟩

/-- `QString::trimmed()`: whitespace removed from both ends. -/
def qTrimmed (s : String) : String :=
  ⟨((s.data.dropWhile isQSpace).reverse.dropWhile isQSpace).reverse⟩

/-- Split a character list at every occurrence of the character `sep`
(the separators are consumed; `n` separators yield `n + 1` pieces, as
`QString::split` with `KeepEmptyParts` does). -/
def splitOnCharList (sep : Char) : List Char → List (List Char)
  | [] => [[]]
  | c :: cs =>
    match splitOnCharList sep cs with
    | r :: rs => if c = sep then [] :: r :: rs else (c :: r) :: rs
    | [] => [[c]]

/-- `QString::split(sep)` for a one-character separator. -/
def qSplitChar (s : String) (sep : Char) : List String :=
  (splitOnCharList sep s.data).map fun l => ⟨l⟩

/-- Join with a one-character separator (inverse of `qSplitChar`). -/
def joinWithChar (sep : Char) (ls : List String) : String :=
  ⟨List.intercalate [sep] (ls.map String.data)⟩

/-- `QString::replace(QRegularExpression("^ ", MultilineOption), "")`:
delete one leading space at the start of the string and after every
newline.  (`^` in multiline mode matches at the start of the text and
right after every line feed; each match consumes the single following
space.) -/
def stripLineLeadingSpace (s : String) : String :=
  joinWithChar '\n' ((qSplitChar s '\n').map fun l =>
    if qStartsWith l " " then qDrop l 1 else l)

/-- `QString::indexOf(pat) != -1`: `pat` occurs as a substring. -/
def qContains (s pat : String) : Bool :=
  s.data.tails.any fun t => pat.data.isPrefixOf t

/-- First index at which `pat` occurs in the character list, if any
(`QString::indexOf`, with `none` standing for the `-1` result). -/
def firstIdxOf (pat : List Char) : List Char → Option Nat
  | [] => if pat.isEmpty then some 0 else none
  | c :: cs =>
    if pat.isPrefixOf (c :: cs) then some 0
    else (firstIdxOf pat cs).map (· + 1)

/-- `QString::indexOf(pat)` (`none` = `-1`). -/
def qIndexOf (s pat : String) : Option Nat :=
  firstIdxOf pat.data s.data

/-- `QString::left(size() - 1)`: drops the final character; on the empty
string `left(-1)` returns the whole (empty) string. -/
def qLeftPred (s : String) : String :=
  if s.data.length = 0 then s else ⟨s.data.take (s.data.length - 1)⟩

/-- `QFileInfo::fileName()`: everything after the last `/`. -/
def qFileName (path : String) : String :=
  ⟨(path.data.reverse.takeWhile (· ≠ '/')).reverse⟩

/-- `QStringList::join(sep)`. -/
def qJoin (ls : List String) (sep : String) : String :=
  String.intercalate sep ls

/-- Lexicographic less-than on character lists, comparing code points
(`QString::operator<` compares UTF-16 code units, which agree with code
points on the ASCII identifiers handled here). -/
def charListLt : List Char → List Char → Bool
  | _, [] => false
  | [], _ :: _ => true
  | a :: as, b :: bs =>
    if a.toNat < b.toNat then true
    else if b.toNat < a.toNat then false
    else charListLt as bs

/-- `QString::operator<`. -/
def strLt (s t : String) : Bool :=
  charListLt s.data t.data

theorem char_eq_of_toNat_eq {a b : Char} (h : a.toNat = b.toNat) : a = b :=
  Char.eq_of_val_eq (UInt32.ext h)

theorem charListLt_asymm : ∀ l m, charListLt l m = true → charListLt m l = false
  | _ :: _, [], h => by rw [charListLt] at h; simp at h
  | [], [], h => by rw [charListLt] at h; simp at h
  | [], _ :: _, _ => rfl
  | a :: as, b :: bs, h => by
    rw [charListLt] at h
    rw [charListLt]
    by_cases h1 : a.toNat < b.toNat
    · have h2 : ¬b.toNat < a.toNat := Nat.lt_asymm h1
      simp [h1, h2]
    · by_cases h2 : b.toNat < a.toNat
      · rw [if_neg h1, if_pos h2] at h; simp at h
      · rw [if_neg h1, if_neg h2] at h
        rw [if_neg h2, if_neg h1]
        exact charListLt_asymm as bs h

theorem charListLt_le_trans : ∀ l₁ l₂ l₃, charListLt l₂ l₁ = false →
    charListLt l₃ l₂ = false → charListLt l₃ l₁ = false
  | [], _, l₃, _, _ => by cases l₃ <;> rfl
  | _ :: _, [], _, h1, _ => by rw [charListLt] at h1; simp at h1
  | _ :: _, _ :: _, [], _, h2 => by rw [charListLt] at h2; simp at h2
  | a :: as, b :: bs, c :: cs, h1, h2 => by
    rw [charListLt] at h1 h2 ⊢
    by_cases hba : b.toNat < a.toNat
    · rw [if_pos hba] at h1; simp at h1
    · rw [if_neg hba] at h1
      by_cases hcb : c.toNat < b.toNat
      · rw [if_pos hcb] at h2; simp at h2
      · rw [if_neg hcb] at h2
        by_cases hca : c.toNat < a.toNat
        · exact absurd hca (Nat.not_lt.mpr
            (Nat.le_trans (Nat.le_of_not_lt hba) (Nat.le_of_not_lt hcb)))
        · rw [if_neg hca]
          by_cases hac : a.toNat < c.toNat
          · rw [if_pos hac]
          · rw [if_neg hac]
            have hceq : a.toNat = c.toNat :=
              Nat.le_antisymm (Nat.le_of_not_lt hca) (Nat.le_of_not_lt hac)
            by_cases hab : a.toNat < b.toNat
            · exact absurd (hceq ▸ hab) hcb
            · rw [if_neg hab] at h1
              by_cases hbc : b.toNat < c.toNat
              · exact absurd (hceq ▸ hbc) hba
              · rw [if_neg hbc] at h2
                exact charListLt_le_trans as bs cs h1 h2

theorem charListLt_conn : ∀ l m, charListLt l m = false → charListLt m l = false → l = m
  | [], [], _, _ => rfl
  | [], _ :: _, h1, _ => by rw [charListLt] at h1; simp at h1
  | _ :: _, [], _, h2 => by rw [charListLt] at h2; simp at h2
  | a :: as, b :: bs, h1, h2 => by
    rw [charListLt] at h1 h2
    by_cases hab : a.toNat < b.toNat
    · rw [if_pos hab] at h1; simp at h1
    · by_cases hba : b.toNat < a.toNat
      · rw [if_pos hba] at h2; simp at h2
      · rw [if_neg hab, if_neg hba] at h1
        rw [if_neg hba, if_neg hab] at h2
        rw [charListLt_conn as bs h1 h2,
          char_eq_of_toNat_eq (Nat.le_antisymm (Nat.le_of_not_lt hba) (Nat.le_of_not_lt hab))]

theorem charListLt_le_total (l m : List Char) :
    charListLt m l = false ∨ charListLt l m = false := by
  cases hx : charListLt m l with
  | false => exact Or.inl rfl
  | true => exact Or.inr (charListLt_asymm m l hx)

theorem strLt_conn {s t : String} (h1 : strLt s t = false) (h2 : strLt t s = false) :
    s = t :=
  String.ext (charListLt_conn _ _ h1 h2)

/-! ## Comment extraction (`descriptionOf`, main.cpp:85-118) -/

/-- The raw comment text protobuf's source-location facility attaches to
one schema item (message, enum, enum value or field). -/
structure SourceLocation where
  leading_comments : String
  trailing_comments : String
deriving DecidableEq, Repr

/-- Lines 88-107 of `descriptionOf`: a raw comment block contributes
only if it starts with `*` or `/`; that marker is dropped (`mid(1)`),
one leading space is stripped from every line, and the leading result is
concatenated directly with the trailing result. -/
def assembledDescription (loc : SourceLocation) : String :=
  let description : String := ""
  let leading := loc.leading_comments
  let description :=
    if qStartsWith leading "*" || qStartsWith leading "/" then
      description ++ stripLineLeadingSpace (qDrop leading 1)
    else description
  let trailing := loc.trailing_comments
  if qStartsWith trailing "*" || qStartsWith trailing "/" then
    description ++ stripLineLeadingSpace (qDrop trailing 1)
  else description

/-- `descriptionOf` (main.cpp:85-118): the assembled description is
trimmed; a trimmed description starting with the literal `@exclude`
loses that 8-character prefix and marks the item excluded, unless the
`no-exclude` flag suppresses the exclusion (the prefix is stripped
either way).  Returns `(description, excluded)`. -/
def descriptionOf (noExclude : Bool) (loc : SourceLocation) : String × Bool :=
  let description := qTrimmed (assembledDescription loc)
  if qStartsWith description "@exclude" then
    (qDrop description 8, !noExclude)
  else
    (description, false)

example : descriptionOf false ⟨"* Hi there", ""⟩ = ("Hi there", false) := by decide
example : descriptionOf false ⟨"ordinary comment", ""⟩ = ("", false) := by decide
example : descriptionOf false ⟨"* @exclude Gone", ""⟩ = (" Gone", true) := by decide
example : descriptionOf true ⟨"* @exclude Gone", ""⟩ = (" Gone", false) := by decide

/-! ## The descriptor model (inputs supplied by the host compiler) -/

/-- `google::protobuf::FieldDescriptor::Type` (all 18 kinds). -/
inductive FieldType where
  | TYPE_DOUBLE | TYPE_FLOAT | TYPE_INT64 | TYPE_UINT64 | TYPE_INT32
  | TYPE_FIXED64 | TYPE_FIXED32 | TYPE_BOOL | TYPE_STRING | TYPE_GROUP
  | TYPE_MESSAGE | TYPE_BYTES | TYPE_UINT32 | TYPE_ENUM
  | TYPE_SFIXED32 | TYPE_SFIXED64 | TYPE_SINT32 | TYPE_SINT64
deriving DecidableEq, Repr

/-- `google::protobuf::FieldDescriptor::Label`. -/
inductive FieldLabel where
  | LABEL_OPTIONAL | LABEL_REQUIRED | LABEL_REPEATED
deriving DecidableEq, Repr

/-- A field declaration: its name, kind, the bare name of the referenced
message/group type (meaningful when the kind is message or group), the
bare name of the referenced enum type (meaningful for enum kind), its
cardinality label and its attached comments. -/
structure FieldDescriptor where
  name : String
  type : FieldType
  message_type_name : String
  enum_type_name : String
  label : FieldLabel
  loc : SourceLocation
deriving DecidableEq, Repr

/-- An enum value declaration. -/
structure EnumValueDescriptor where
  name : String
  number : Int
  loc : SourceLocation
deriving DecidableEq, Repr

/-- An enum declaration. -/
structure EnumDescriptor where
  name : String
  value : List EnumValueDescriptor
  loc : SourceLocation
deriving DecidableEq, Repr

/-- A message declaration, with its nested message and enum types. -/
inductive Descriptor where
  | mk (name : String) (loc : SourceLocation) (field : List FieldDescriptor)
       (nested_type : List Descriptor) (enum_type : List EnumDescriptor)

def Descriptor.name : Descriptor → String
  | .mk n _ _ _ _ => n

def Descriptor.loc : Descriptor → SourceLocation
  | .mk _ l _ _ _ => l

def Descriptor.field : Descriptor → List FieldDescriptor
  | .mk _ _ f _ _ => f

def Descriptor.nested_type : Descriptor → List Descriptor
  | .mk _ _ _ n _ => n

def Descriptor.enum_type : Descriptor → List EnumDescriptor
  | .mk _ _ _ _ e => e

/-- A schema file: host-supplied path, package, source text (as the list
of its lines, or an open-failure `errorString`), and its top-level
declarations. -/
structure FileDescriptor where
  name : String
  package : String
  source : Except String (List String)
  message_type : List Descriptor
  enum_type : List EnumDescriptor

/-! ## The document tree (the `QVariantHash` nodes built by the walk) -/

/-- The hash built per field (main.cpp:239-272). -/
structure FieldV where
  field_name : String
  field_description : String
  field_type : String
deriving DecidableEq, Repr

/-- The hash built per enum value (main.cpp:305-309). -/
structure EnumValueV where
  value_name : String
  value_number : Int
  value_description : String
deriving DecidableEq, Repr

/-- The hash built per enum (main.cpp:287-314). -/
structure EnumV where
  enum_name : String
  enum_description : String
  enum_values : List EnumValueV
deriving DecidableEq, Repr

/-- The hash built per message (main.cpp:334-347). -/
structure MessageV where
  message_name : String
  message_description : String
  message_has_fields : Bool
  message_fields : List FieldV
deriving DecidableEq, Repr

/-- The hash built per file (main.cpp:376-398). -/
structure FileV where
  file_name : String
  file_description : String
  file_package : String
  file_messages : List MessageV
  file_enums : List EnumV
deriving DecidableEq, Repr

/-- `v.toHash()[key].toString()` for a field hash: the three stored keys
resolve to their values; any other key (in particular `value_name`)
yields a default-constructed `QVariant`, whose `toString()` is `""`. -/
def FieldV.hashLookup (v : FieldV) (key : String) : String :=
  if key = "field_name" then v.field_name
  else if key = "field_description" then v.field_description
  else if key = "field_type" then v.field_type
  else ""

/-- `v.toHash()[key].toString()` for an enum-value hash; the absent
`field_name` key yields `""`, and the numeric `value_number` renders in
decimal. -/
def EnumValueV.hashLookup (v : EnumValueV) (key : String) : String :=
  if key = "value_name" then v.value_name
  else if key = "value_number" then toString v.value_number
  else if key = "value_description" then v.value_description
  else ""

/-- `nameLessThan` (main.cpp:66-71) applied to two field hashes. -/
def nameLessThanFields (v1 v2 : FieldV) : Bool :=
  if strLt (v1.hashLookup "field_name") (v2.hashLookup "field_name") then true
  else strLt (v1.hashLookup "value_name") (v2.hashLookup "value_name")

/-- `nameLessThan` (main.cpp:66-71) applied to two enum-value hashes. -/
def nameLessThanValues (v1 v2 : EnumValueV) : Bool :=
  if strLt (v1.hashLookup "field_name") (v2.hashLookup "field_name") then true
  else strLt (v1.hashLookup "value_name") (v2.hashLookup "value_name")

/-- `scalarTypeName` (main.cpp:193-218). -/
def scalarTypeName (type : FieldType) : String :=
  match type with
  | .TYPE_BOOL => "<a href=\"/docs/types.php\">bool</a>"
  | .TYPE_BYTES | .TYPE_STRING => "<a href=\"/docs/types.php\">string</a>"
  | .TYPE_DOUBLE | .TYPE_FLOAT => "<a href=\"/docs/types.php\">float</a>"
  | .TYPE_FIXED32 | .TYPE_FIXED64 | .TYPE_INT32 | .TYPE_INT64
  | .TYPE_SFIXED32 | .TYPE_SFIXED64 | .TYPE_SINT32 | .TYPE_SINT64
  | .TYPE_UINT32 | .TYPE_UINT64 => "<a href=\"/docs/types.php\">int</a>"
  | _ => "<unknown>"

/-- `typeUrl` (main.cpp:220-223). -/
def typeUrl (type : String) : String :=
  "<a href=\"/docs/dsl-types.php#" ++ type ++ "\">" ++ type ++ "</a>"

/-- `addField` (main.cpp:230-273): an excluded field is skipped; an
accepted one is appended with its display type (message/group and enum
kinds link to the bare referenced type name; scalar kinds go through the
table, except that a field name containing `date` forces the `time`
link; the optional label appends `?` and the repeated label prefixes
`array of`). -/
def addField (noExclude : Bool) (fieldDescriptor : FieldDescriptor)
    (fields : List FieldV) : List FieldV :=
  let de := descriptionOf noExclude fieldDescriptor.loc
  if de.2 then fields
  else
    let type := fieldDescriptor.type
    let fieldType :=
      if type = .TYPE_MESSAGE || type = .TYPE_GROUP then
        typeUrl fieldDescriptor.message_type_name
      else if type = .TYPE_ENUM then
        typeUrl fieldDescriptor.enum_type_name
      else
        if qContains fieldDescriptor.name "date" then
          "<a href=\"/docs/types.php\">time</a>"
        else
          scalarTypeName type
    let fieldType :=
      if fieldDescriptor.label = .LABEL_OPTIONAL then fieldType ++ "?"
      else if fieldDescriptor.label = .LABEL_REPEATED then
        "<a href=\"/docs/types.php\">array</a> of " ++ fieldType
      else fieldType
    fields ++ [{ field_name := fieldDescriptor.name,
                 field_description := de.1,
                 field_type := fieldType }]

/-- The field loop of `addMessages` (main.cpp:342-344). -/
def addFields (noExclude : Bool) : List FieldDescriptor → List FieldV → List FieldV
  | [], fields => fields
  | fd :: rest, fields => addFields noExclude rest (addField noExclude fd fields)

/-- The value loop of `addEnum` (main.cpp:295-310): excluded values are
skipped (`continue`), accepted ones appended. -/
def addEnumValues (noExclude : Bool) :
    List EnumValueDescriptor → List EnumValueV → List EnumValueV
  | [], values => values
  | vd :: rest, values =>
    let de := descriptionOf noExclude vd.loc
    addEnumValues noExclude rest
      (if de.2 then values
       else values ++ [{ value_name := vd.name, value_number := vd.number,
                         value_description := de.1 }])

/-- `addEnum` (main.cpp:278-315), with the `std::sort` call abstracted
as the function `sortE` (the C++ sorts `values` with `nameLessThan`). -/
def addEnum (noExclude : Bool) (sortE : List EnumValueV → List EnumValueV)
    (enumDescriptor : EnumDescriptor) (enums : List EnumV) : List EnumV :=
  let de := descriptionOf noExclude enumDescriptor.loc
  if de.2 then enums
  else
    let values := sortE (addEnumValues noExclude enumDescriptor.value [])
    enums ++ [{ enum_name := enumDescriptor.name,
                enum_description := de.1,
                enum_values := values }]

/-- The enum loop of `addMessages`/`addFile` (main.cpp:355-357 and
393-395). -/
def addEnums (noExclude : Bool) (sortE : List EnumValueV → List EnumValueV) :
    List EnumDescriptor → List EnumV → List EnumV
  | [], enums => enums
  | ed :: rest, enums => addEnums noExclude sortE rest (addEnum noExclude sortE ed enums)

/-- The sorted field list attached to a message (main.cpp:341-345),
with the `std::sort` call abstracted as `sortF`. -/
def messageFields (noExclude : Bool) (sortF : List FieldV → List FieldV)
    (fds : List FieldDescriptor) : List FieldV :=
  sortF (addFields noExclude fds [])

mutual

/-- `addMessages` (main.cpp:323-358): an excluded message contributes
nothing (its subtree is not walked); otherwise its node is appended and
the walk recurses into nested messages and enums, flattening them into
the same two sibling lists. -/
def addMessages (noExclude : Bool) (sortF : List FieldV → List FieldV)
    (sortE : List EnumValueV → List EnumValueV) (descriptor : Descriptor)
    (acc : List MessageV × List EnumV) : List MessageV × List EnumV :=
  match descriptor with
  | .mk dname dloc dfield dnested denums =>
    let de := descriptionOf noExclude dloc
    if de.2 then acc
    else
      let fields := messageFields noExclude sortF dfield
      let message : MessageV :=
        { message_name := dname,
          message_description := de.1,
          message_has_fields := !fields.isEmpty,
          message_fields := fields }
      let acc := (acc.1 ++ [message], acc.2)
      let acc := addMessagesList noExclude sortF sortE dnested acc
      (acc.1, addEnums noExclude sortE denums acc.2)
termination_by sizeOf descriptor

/-- The nested-message loop of `addMessages` (main.cpp:352-354) and the
top-level message loop of `addFile` (main.cpp:387-389). -/
def addMessagesList (noExclude : Bool) (sortF : List FieldV → List FieldV)
    (sortE : List EnumValueV → List EnumValueV) :
    List Descriptor → List MessageV × List EnumV → List MessageV × List EnumV
  | [], acc => acc
  | d :: rest, acc =>
    addMessagesList noExclude sortF sortE rest (addMessages noExclude sortF sortE d acc)
termination_by ds _ => sizeOf ds

end

/-! ## File-header extraction (`descriptionOf(FileDescriptor)`, main.cpp:135-188)

The file is modelled as the list of its lines (`QTextStream::readLine`
reads one line; `atEnd()` holds exactly when no line remains, which for
a file ending in a final newline is right after the last line has been
read). -/

/-- The `///` loop (main.cpp:156-159): while the stream is not at its
end and the current line starts with `///`, append the line with the
marker (and one following space) stripped plus a newline, and read the
next line.  Note the end-of-stream test is checked before the current
line is appended. -/
def slashLoop : String → List String → String → String
  | line, stream, description =>
    match stream with
    | [] => description
    | next :: rest =>
      if qStartsWith line "///" then
        slashLoop (qTrimmed next) rest
          (description ++ qDrop line (if qStartsWith line "/// " then 4 else 3) ++ "\n")
      else description

/-- The `/**` loop (main.cpp:163-174): consume lines until one contains
`*/`, stripping a leading `*` or `* `; the closing line contributes the
text before `*/` (its `*`-marker stripped unless it is the `*/`
itself).  When the stream runs out before a `*/` is found the C++ loop
re-reads the null string forever; that divergence is modelled as
`none`. -/
def blockLoop : String → List String → String → Option String
  | line, stream, description =>
    match qIndexOf line "*/" with
    | some e =>
      let start := (if qStartsWith line "*" && !qStartsWith line "*/" then 1 else 0)
        + (if qStartsWith line "* " then 1 else 0)
      some (description ++ qMid line start (e - start))
    | none =>
      let start := (if qStartsWith line "*" then 1 else 0)
        + (if qStartsWith line "* " then 1 else 0)
      let description := description ++ qDrop line start ++ "\n"
      match stream with
      | [] => none
      | next :: rest => blockLoop (qTrimmed next) rest description

/-- The scan of main.cpp:151-177: skip blank lines; at the first
non-blank (trimmed) line take a `///` run, or a `/**` block (unless it
is the empty `/***/` form), or nothing; then stop. -/
def extractFileDescription : List String → Option String
  | [] => some ""
  | l :: rest =>
    let line := qTrimmed l
    if line = "" then extractFileDescription rest
    else if qStartsWith line "///" then
      some (qLeftPred (slashLoop line rest ""))
    else if qStartsWith line "/**" && !qStartsWith line "/***/" then
      blockLoop (qDrop line 2) rest ""
    else some ""

/-- `descriptionOf(FileDescriptor)` (main.cpp:135-188).  On an open
failure the error string `"<file>: <reason>"` replaces `error` and the
empty description is returned with `excluded` left `false`; otherwise
the extracted header gets the same trim-and-`@exclude` treatment as
item comments.  Returns `(description, excluded, error)`; `none` models
the non-terminating malformed-block case. -/
def fileDescriptionOf (noExclude : Bool) (fd : FileDescriptor) (error : String) :
    Option (String × Bool × String) :=
  match fd.source with
  | .error e => some ("", false, fd.name ++ ": " ++ e)
  | .ok lines =>
    (extractFileDescription lines).map fun d =>
      let d := qTrimmed d
      if qStartsWith d "@exclude" then (qDrop d 8, !noExclude, error)
      else (d, false, error)

/-- `addFile` (main.cpp:367-399): an excluded file contributes nothing;
otherwise the file node is appended, its stored name being
`QFileInfo(...).fileName()` — the base name of the host-supplied path.
The walk still runs when the header read failed (the caller checks the
error afterwards). -/
def addFile (noExclude : Bool) (sortF : List FieldV → List FieldV)
    (sortE : List EnumValueV → List EnumValueV) (fd : FileDescriptor)
    (files : List FileV) (error : String) : Option (List FileV × String) :=
  (fileDescriptionOf noExclude fd error).map fun r =>
    let description := r.1
    let excluded := r.2.1
    let error := r.2.2
    if excluded then (files, error)
    else
      let acc := addMessagesList noExclude sortF sortE fd.message_type ([], [])
      let enums := addEnums noExclude sortE fd.enum_type acc.2
      (files ++ [{ file_name := qFileName fd.name,
                   file_description := description,
                   file_package := fd.package,
                   file_messages := acc.1,
                   file_enums := enums }], error)

/-! ## Parameter parsing and rendering (main.cpp:420-580) -/

/-- The generator context (main.cpp:48-54) minus the accumulated file
list, which the driver threads separately. -/
structure DocGeneratorContext where
  template_ : String
  outputFileName : String
  noExclude : Bool
deriving DecidableEq, Repr

/-- A located template-engine failure: `renderer.error()`,
`renderer.errorPartial()` and `renderer.errorPos()`. -/
structure RenderError where
  message : String
  errorPart : String
  errorPos : Int
deriving DecidableEq, Repr

/-- The capabilities the run obtains from outside the core: the built-in
format names, the file system serving template files (content or
`errorString`), the JSON serializer (`none` models a null
`QJsonDocument`), the template engine, and the behaviour `std::sort`
exhibits on the two list kinds. -/
structure Engine where
  formats : List String
  fsTemplates : String → Except String String
  jsonDoc : List FileV → Option String
  renderTpl : String → List FileV → Except RenderError String
  sortF : List FieldV → List FieldV
  sortE : List EnumValueV → List EnumValueV

/-- `usage` (main.cpp:437-442): the deterministic usage string listing
the built-in formats. -/
def usage (formats : List String) : String :=
  "Usage: --doc_out=" ++ qJoin formats "|"
    ++ "|<TEMPLATE_FILENAME>,<OUT_FILENAME>[,no-exclude]:<OUT_DIR>"

/-- `readTemplate` (main.cpp:451-463): a supported format name resolves
to the built-in resource path, anything else is used as a file name;
returns the content, or `QString()` plus the error `"<file>: <reason>"`
on an open failure. -/
def readTemplate (formats : List String) (fs : String → Except String String)
    (name : String) : String × Option String :=
  let builtInFileName := ":/templates/" ++ name ++ ".mustache"
  let fileName := if formats.contains name then builtInFileName else name
  match fs fileName with
  | .error e => ("", some (fileName ++ ": " ++ e))
  | .ok contents => (contents, none)

/-- `parseParameter` (main.cpp:472-498).  Returns
`(ok, context, error)`.  Parsing fails (with the usage message as the
error) unless the comma-split parameter has exactly two or three
tokens, a third token being exactly `no-exclude`; on success the
template is read unless the first token is `json` (a failed template
read records the error but `parseParameter` still returns `true`). -/
def parseParameter (formats : List String) (fs : String → Except String String)
    (parameter : String) (ctx : DocGeneratorContext) (error : String) :
    Bool × DocGeneratorContext × String :=
  let tokens := qSplitChar parameter ','
  if tokens.length ≠ 2 ∧ tokens.length ≠ 3 then
    (false, ctx, usage formats)
  else if tokens.length = 3 ∧ tokens.getD 2 "" ≠ "no-exclude" then
    (false, ctx, usage formats)
  else
    let noExclude := tokens.length = 3
    let te :=
      if tokens.getD 0 "" ≠ "json" then
        readTemplate formats fs (tokens.getD 0 "")
      else (ctx.template_, none)
    (true,
     { template_ := te.1, outputFileName := tokens.getD 1 "", noExclude := noExclude },
     match te.2 with
     | some e => e
     | none => error)

/-- `formattedError` (main.cpp:408-418). -/
def formattedError (template_ : String) (r : RenderError) : String :=
  let location :=
    if r.errorPart ≠ "" then template_ ++ " in partial " ++ r.errorPart
    else template_
  location ++ ":" ++ toString r.errorPos ++ ": " ++ r.message

/-- `render` (main.cpp:538-580): raw JSON when no template is
configured, otherwise the template engine; on success the complete
result is written to the sink under the configured output name
(modelled as the returned pair), on any failure an error and no
write. -/
def render (eng : Engine) (ctx : DocGeneratorContext) (files : List FileV) :
    Except String (String × String) :=
  if ctx.template_ = "" then
    match eng.jsonDoc files with
    | none => .error "Failed to create JSON document"
    | some result => .ok (ctx.outputFileName, result)
  else
    match eng.renderTpl ctx.template_ files with
    | .error e => .error (formattedError ctx.template_ e)
    | .ok result => .ok (ctx.outputFileName, result)

/-- What one `DocGenerator::Generate` callback leaves behind. -/
structure GenOutcome where
  ok : Bool
  ctx : DocGeneratorContext
  files : List FileV
  error : String
  writes : List (String × String)
deriving DecidableEq, Repr

/-- `DocGenerator::Generate` (main.cpp:588-620): parse the parameter on
the first file, add the file, abort if any error has been recorded,
render after the last file.  `none` models the non-terminating header
scan. -/
def Generate (eng : Engine) (parameter : String) (fd : FileDescriptor)
    (isFirst isLast : Bool) (ctx : DocGeneratorContext) (files : List FileV)
    (error : String) : Option GenOutcome :=
  let pe :=
    if isFirst then parseParameter eng.formats eng.fsTemplates parameter ctx error
    else (true, ctx, error)
  if pe.1 = false then some ⟨false, pe.2.1, files, pe.2.2, []⟩
  else
    match addFile pe.2.1.noExclude eng.sortF eng.sortE fd files pe.2.2 with
    | none => none
    | some fr =>
      if fr.2 ≠ "" then some ⟨false, pe.2.1, fr.1, fr.2, []⟩
      else if isLast then
        match render eng pe.2.1 fr.1 with
        | .error e => some ⟨false, pe.2.1, fr.1, e, []⟩
        | .ok w => some ⟨true, pe.2.1, fr.1, fr.2, [w]⟩
      else some ⟨true, pe.2.1, fr.1, fr.2, []⟩

/-- The host loop of `protobuf::compiler::PluginMain`: one `Generate`
call per parsed file, in order, stopping at the first failure. -/
def runFiles (eng : Engine) (parameter : String) :
    List FileDescriptor → Bool → DocGeneratorContext → List FileV → String →
    List (String × String) → Option GenOutcome
  | [], _, ctx, files, error, writes => some ⟨true, ctx, files, error, writes⟩
  | fd :: rest, isFirst, ctx, files, error, writes =>
    match Generate eng parameter fd isFirst rest.isEmpty ctx files error with
    | none => none
    | some o =>
      if o.ok then runFiles eng parameter rest false o.ctx o.files o.error (writes ++ o.writes)
      else some ⟨false, o.ctx, o.files, o.error, writes ++ o.writes⟩

/-- A whole plugin run over the host-supplied files, starting from the
empty context and empty document tree. -/
def pluginRun (eng : Engine) (parameter : String) (fds : List FileDescriptor) :
    Option GenOutcome :=
  runFiles eng parameter fds true ⟨"", "", false⟩ [] "" []

/-! ## The `p` paragraph filter (main.cpp:507-511)

`pFilter` splits the rendered text with the regular expression
`(\n|\r|\r\n)\s*(\n|\r|\r\n)` and joins with `</p><p>`.  The regex is
modelled by its observable behaviour under PCRE leftmost/greedy
matching: a match starts at a newline character, `\s*` then swallows
the longest whitespace run whose last newline character becomes the
second group (the `\r\n` alternatives are subsumed: a lone `\n`/`\r`
alternative is tried first and always suffices). -/

/-- A `\s` character of the regex engine (ASCII). -/
def isRegexSpace (c : Char) : Bool :=
  c = ' ' || c = '\t' || c = '\n' || c = '\x0b' || c = '\x0c' || c = '\r'

/-- A line-break character (`\n` or `\r`). -/
def isNl (c : Char) : Bool :=
  c = '\n' || c = '\r'

/-- Index of the last line-break character of the list, if any. -/
def lastNlIdx : List Char → Option Nat
  | [] => none
  | c :: cs =>
    match lastNlIdx cs with
    | some i => some (i + 1)
    | none => if isNl c then some 0 else none

/-- Length of the match of `(\n|\r|\r\n)\s*(\n|\r|\r\n)` at the head of
`cs`, if it matches there: one newline character, then the whitespace
prefix up to and including its last newline character. -/
def matchBlank (cs : List Char) : Option Nat :=
  match cs with
  | [] => none
  | c :: rest =>
    if isNl c then
      match lastNlIdx (rest.takeWhile isRegexSpace) with
      | some i => some (i + 2)
      | none => none
    else none

/-- `QString::split` on the blank-line regex: scan left to right,
cutting a segment at every match (the fuel, always called with at least
`cs.length`, only discharges termination). -/
def splitBlank : Nat → List Char → List Char → List String → List String
  | _, [], cur, acc => acc ++ [⟨cur.reverse⟩]
  | 0, _ :: _, cur, acc => acc ++ [⟨cur.reverse⟩]
  | fuel + 1, c :: rest, cur, acc =>
    match matchBlank (c :: rest) with
    | some n => splitBlank fuel ((c :: rest).drop n) [] (acc ++ [⟨cur.reverse⟩])
    | none => splitBlank fuel rest (c :: cur) acc

/-- `pFilter` (main.cpp:507-511) applied to the already-rendered text:
split at blank-line boundaries, join with `</p><p>`, wrap in
`<p>`…`</p>`. -/
def pFilter (rendered : String) : String :=
  "<p>" ++ qJoin (splitBlank rendered.data.length rendered.data [] []) "</p><p>" ++ "</p>"

example : pFilter "Hello\n\nWorld" = "<p>Hello</p><p>World</p>" := by decide
example : pFilter "One" = "<p>One</p>" := by decide
example : pFilter "a\n\n  \nb" = "<p>a</p><p>b</p>" := by decide

/-! ## The `std::sort` contract and the stable sort

`std::sort(first, last, comp)` guarantees only that the result is a
permutation of the input that is sorted with respect to `comp` (no
adjacent pair is inverted); it does **not** promise stability.  A
"behaviour of `std::sort`" is therefore any function whose output is a
sorted permutation of its input. -/

/-- `is_sorted` with respect to `nameLessThan` on field hashes. -/
def SortedFields (l : List FieldV) : Prop :=
  List.Chain' (fun a b => nameLessThanFields b a = false) l

/-- `is_sorted` with respect to `nameLessThan` on enum-value hashes. -/
def SortedValues (l : List EnumValueV) : Prop :=
  List.Chain' (fun a b => nameLessThanValues b a = false) l

/-- `output` is a result `std::sort(comp = nameLessThan)` may produce
from `input`. -/
def IsSortResultF (input output : List FieldV) : Prop :=
  input.Perm output ∧ SortedFields output

/-- `output` is a result `std::sort(comp = nameLessThan)` may produce
from `input`. -/
def IsSortResultV (input output : List EnumValueV) : Prop :=
  input.Perm output ∧ SortedValues output

/-- `sortF` is a possible behaviour of the `std::sort` call of
main.cpp:345. -/
def ValidSortF (sortF : List FieldV → List FieldV) : Prop :=
  ∀ l, IsSortResultF l (sortF l)

/-- `sortE` is a possible behaviour of the `std::sort` call of
main.cpp:311. -/
def ValidSortE (sortE : List EnumValueV → List EnumValueV) : Prop :=
  ∀ l, IsSortResultV l (sortE l)

/-- On the homogeneous field list the comparator reduces to comparing
the `field_name` keys (the `value_name` fallback compares `"" < ""`,
which fails). -/
theorem nameLessThanFields_eq (a b : FieldV) :
    nameLessThanFields a b = strLt a.field_name b.field_name := by
  by_cases h : strLt a.field_name b.field_name = true <;>
    simp [nameLessThanFields, FieldV.hashLookup, h] <;>
      simp [strLt, charListLt]

/-- On the homogeneous enum-value list the comparator reduces to
comparing the `value_name` keys (the `field_name` test compares
`"" < ""`, which fails). -/
theorem nameLessThanValues_eq (a b : EnumValueV) :
    nameLessThanValues a b = strLt a.value_name b.value_name := by
  simp [nameLessThanValues, EnumValueV.hashLookup, strLt, charListLt]

/-- Ascending order on the `field_name` key (the spec's sort key for
field lists): `a` precedes `b` when `b`'s key is not less than `a`'s. -/
def fieldKeyLE (a b : FieldV) : Prop := strLt b.field_name a.field_name = false

/-- Ascending order on the `value_name` key (the spec's sort key for
enum-value lists). -/
def valueKeyLE (a b : EnumValueV) : Prop := strLt b.value_name a.value_name = false

instance : DecidableRel fieldKeyLE := fun a b =>
  inferInstanceAs (Decidable (strLt b.field_name a.field_name = false))

instance : DecidableRel valueKeyLE := fun a b =>
  inferInstanceAs (Decidable (strLt b.value_name a.value_name = false))

instance : IsTotal FieldV fieldKeyLE :=
  ⟨fun a b => charListLt_le_total a.field_name.data b.field_name.data⟩

instance : IsTrans FieldV fieldKeyLE :=
  ⟨fun a b c h h' => charListLt_le_trans a.field_name.data b.field_name.data
    c.field_name.data h h'⟩

instance : IsTotal EnumValueV valueKeyLE :=
  ⟨fun a b => charListLt_le_total a.value_name.data b.value_name.data⟩

instance : IsTrans EnumValueV valueKeyLE :=
  ⟨fun a b c h h' => charListLt_le_trans a.value_name.data b.value_name.data
    c.value_name.data h h'⟩

/-- The stable ascending sort of field hashes by their name key
(insertion sort is the canonical stable sort: an element is inserted
after every earlier element with an equal key). -/
def stableSortFields (l : List FieldV) : List FieldV :=
  l.insertionSort fieldKeyLE

/-- The stable ascending sort of enum-value hashes by their name key. -/
def stableSortValues (l : List EnumValueV) : List EnumValueV :=
  l.insertionSort valueKeyLE

theorem chain_of_sorted_fields {l : List FieldV} (h : l.Sorted fieldKeyLE) :
    SortedFields l := by
  refine List.Pairwise.chain' (List.Pairwise.imp ?_ h)
  intro a b hab
  rw [nameLessThanFields_eq]
  exact hab

theorem chain_of_sorted_values {l : List EnumValueV} (h : l.Sorted valueKeyLE) :
    SortedValues l := by
  refine List.Pairwise.chain' (List.Pairwise.imp ?_ h)
  intro a b hab
  rw [nameLessThanValues_eq]
  exact hab

/-- The stable sort is one possible behaviour of `std::sort`. -/
theorem validSortF_stableSortFields : ValidSortF stableSortFields := fun l =>
  ⟨(l.perm_insertionSort fieldKeyLE).symm,
   chain_of_sorted_fields (l.sorted_insertionSort fieldKeyLE)⟩

/-- The stable sort is one possible behaviour of `std::sort`. -/
theorem validSortE_stableSortValues : ValidSortE stableSortValues := fun l =>
  ⟨(l.perm_insertionSort valueKeyLE).symm,
   chain_of_sorted_values (l.sorted_insertionSort valueKeyLE)⟩

/-! ## Closed forms of the element loops -/

/-- The display-type computation of `addField` (main.cpp:245-268). -/
def displayType (fd : FieldDescriptor) : String :=
  let fieldType :=
    if fd.type = .TYPE_MESSAGE || fd.type = .TYPE_GROUP then
      typeUrl fd.message_type_name
    else if fd.type = .TYPE_ENUM then
      typeUrl fd.enum_type_name
    else
      if qContains fd.name "date" then "<a href=\"/docs/types.php\">time</a>"
      else scalarTypeName fd.type
  if fd.label = .LABEL_OPTIONAL then fieldType ++ "?"
  else if fd.label = .LABEL_REPEATED then
    "<a href=\"/docs/types.php\">array</a> of " ++ fieldType
  else fieldType

/-- The node `addField` appends for an accepted field. -/
def toFieldV (noExclude : Bool) (fd : FieldDescriptor) : FieldV :=
  { field_name := fd.name,
    field_description := (descriptionOf noExclude fd.loc).1,
    field_type := displayType fd }

/-- The node the value loop appends for an accepted enum value. -/
def toEnumValueV (noExclude : Bool) (vd : EnumValueDescriptor) : EnumValueV :=
  { value_name := vd.name,
    value_number := vd.number,
    value_description := (descriptionOf noExclude vd.loc).1 }

theorem addField_apply (noExclude : Bool) (fd : FieldDescriptor) (fields : List FieldV) :
    addField noExclude fd fields =
      if (descriptionOf noExclude fd.loc).2 then fields
      else fields ++ [toFieldV noExclude fd] := by
  simp only [addField, toFieldV, displayType]

/-- The field loop keeps exactly the non-excluded fields, in order,
each as its node. -/
theorem addFields_eq (noExclude : Bool) :
    ∀ (fds : List FieldDescriptor) (fields : List FieldV),
      addFields noExclude fds fields =
        fields ++ (fds.filter fun fd => !(descriptionOf noExclude fd.loc).2).map
          (toFieldV noExclude)
  | [], fields => by simp [addFields]
  | fd :: rest, fields => by
    rw [addFields, addFields_eq noExclude rest, addField_apply]
    by_cases h : (descriptionOf noExclude fd.loc).2 <;> simp [h]

/-- The value loop keeps exactly the non-excluded values, in order,
each as its node. -/
theorem addEnumValues_eq (noExclude : Bool) :
    ∀ (vds : List EnumValueDescriptor) (values : List EnumValueV),
      addEnumValues noExclude vds values =
        values ++ (vds.filter fun vd => !(descriptionOf noExclude vd.loc).2).map
          (toEnumValueV noExclude)
  | [], values => by simp [addEnumValues]
  | vd :: rest, values => by
    rw [addEnumValues, addEnumValues_eq noExclude rest]
    by_cases h : (descriptionOf noExclude vd.loc).2 <;> simp [h, toEnumValueV]

/-! ## Bridging lemmas for single-character prefixes -/

theorem qStartsWith_one (c : Char) (s : String) :
    qStartsWith s ⟨[c]⟩ = decide (s.data.head? = some c) := by
  rcases s with ⟨l⟩
  cases l with
  | nil => rfl
  | cons d ds =>
    show (c == d && List.isPrefixOf [] ds) = decide (some d = some c)
    by_cases hc : d = c
    · simp [hc]
    · simp [hc, Ne.symm hc]

theorem qStartsWith_star (s : String) :
    qStartsWith s "*" = decide (s.data.head? = some '*') :=
  qStartsWith_one '*' s

theorem qStartsWith_slash (s : String) :
    qStartsWith s "/" = decide (s.data.head? = some '/') :=
  qStartsWith_one '/' s

theorem qStartsWith_space (s : String) :
    qStartsWith s " " = decide (s.data.head? = some ' ') :=
  qStartsWith_one ' ' s

/-! ## Claim C4 — description assembly -/

/-- Spec 4.1: a raw comment block counts as documentation only if,
after its opening delimiter, the very next character is `*` or `/`. -/
def countsAsDoc (raw : String) : Bool :=
  decide (raw.data.head? = some '*') || decide (raw.data.head? = some '/')

/-- Spec 4.1: the contribution of one raw comment — strip exactly one
marker character, then at most one leading space from the start of
every line; a non-qualifying comment contributes nothing. -/
def specContribution (raw : String) : String :=
  if countsAsDoc raw then
    joinWithChar '\n'
      ((qSplitChar (⟨raw.data.drop 1⟩ : String) '\n').map fun l =>
        if l.data.head? = some ' ' then ⟨l.data.drop 1⟩ else l)
  else ""

/-- Spec 4.1: concatenate the qualifying leading result immediately
before the qualifying trailing result (no separator) and trim
surrounding whitespace. -/
def specAssembled (loc : SourceLocation) : String :=
  qTrimmed (specContribution loc.leading_comments ++ specContribution loc.trailing_comments)

/-- C4: the description an item's raw comments assemble to (the trimmed
value `descriptionOf` applies the `@exclude` test to) is exactly the
spec's pipeline: only comments whose first character is `*` or `/`
contribute; one marker character is stripped, then at most one leading
space per line; leading result then trailing result, no separator,
surrounding whitespace trimmed; a non-qualifying comment contributes
nothing.  Concrete checks: a plain (non-doc) comment yields nothing,
and a doc comment loses marker and one space per line. -/
theorem C4_description_assembly :
    (∀ loc : SourceLocation,
      qTrimmed (assembledDescription loc) = specAssembled loc)
    ∧ descriptionOf false ⟨" not documentation ", ""⟩ = ("", false)
    ∧ descriptionOf false ⟨"* Leading\n  indented", "/ Trailing"⟩ =
        ("Leading\n indentedTrailing", false) := by
  refine ⟨fun loc => ?_, by decide, by decide⟩
  have hL : (if qStartsWith loc.leading_comments "*" || qStartsWith loc.leading_comments "/"
      then stripLineLeadingSpace (qDrop loc.leading_comments 1) else "")
      = specContribution loc.leading_comments := by
    simp only [specContribution, countsAsDoc, stripLineLeadingSpace, qStartsWith_star,
      qStartsWith_slash, qStartsWith_space, qDrop, decide_eq_true_eq]
  have hT : (if qStartsWith loc.trailing_comments "*" || qStartsWith loc.trailing_comments "/"
      then stripLineLeadingSpace (qDrop loc.trailing_comments 1) else "")
      = specContribution loc.trailing_comments := by
    simp only [specContribution, countsAsDoc, stripLineLeadingSpace, qStartsWith_star,
      qStartsWith_slash, qStartsWith_space, qDrop, decide_eq_true_eq]
  have hA : assembledDescription loc =
      specContribution loc.leading_comments ++ specContribution loc.trailing_comments := by
    rw [assembledDescription, ← hL, ← hT]
    by_cases h1 : qStartsWith loc.leading_comments "*" || qStartsWith loc.leading_comments "/" <;>
      by_cases h2 : qStartsWith loc.trailing_comments "*" || qStartsWith loc.trailing_comments "/" <;>
        simp [h1, h2]
  rw [specAssembled, hA]

/-! ## Claim C3 — the `@exclude` directive

The spec's example field carries the comment
`/** @exclude Deprecated field */`; protobuf delivers the text between
the comment delimiters, `"* @exclude Deprecated field "`, as the raw
leading comment. -/

/-- The raw comment the host supplies for
`/** @exclude Deprecated field */`. -/
def excludeExampleLoc : SourceLocation :=
  ⟨"* @exclude Deprecated field ", ""⟩

/-- The field of the spec's `@exclude` example. -/
def excludeExampleField : FieldDescriptor :=
  { name := "legacy", type := .TYPE_INT32, message_type_name := "",
    enum_type_name := "", label := .LABEL_REQUIRED, loc := excludeExampleLoc }

/-- C3 fails as stated: with the ignore-directives option active the
example field is present, but its description is `" Deprecated field"`
— the space that followed the directive survives, because trimming
happens before the 8-character prefix is removed — and not the claimed
`"Deprecated field"`. -/
theorem C3_counterexample :
    (addField true excludeExampleField []).map FieldV.field_description =
        [" Deprecated field"]
    ∧ (addField true excludeExampleField []).map FieldV.field_description ≠
        ["Deprecated field"] := by
  constructor <;> decide

/-- C3 (amended): whenever the trimmed assembled comment text begins
with the literal `@exclude`, exactly that 8-character prefix is removed
(whatever follows it, including a separating space, is kept) and
`excluded` is set unless the ignore-directives flag is active, in which
case the prefix is still stripped but `excluded` stays false.  The
spec's example field is absent when directives are honored, and present
with description `" Deprecated field"` under ignore-directives. -/
theorem C3_exclude_directive :
    (∀ (noExclude : Bool) (loc : SourceLocation),
      qStartsWith (qTrimmed (assembledDescription loc)) "@exclude" = true →
      descriptionOf noExclude loc =
        (qDrop (qTrimmed (assembledDescription loc)) 8, !noExclude))
    ∧ addField false excludeExampleField [] = []
    ∧ (addField true excludeExampleField []).map FieldV.field_description =
        [" Deprecated field"] := by
  refine ⟨fun noExclude loc h => ?_, by decide, by decide⟩
  simp [descriptionOf, h]

/-- C3 witness: the general part applied to the example comment. -/
theorem C3_exclude_directive_witness :
    descriptionOf false excludeExampleLoc = (" Deprecated field", true) := by
  have h := C3_exclude_directive.1 false excludeExampleLoc (by decide)
  rw [h]; decide

/-! ## Claim C5 — the `date` override for scalar fields -/

/-- C5: for a field of scalar kind (not message, group or enum) whose
declared name contains the substring `date`, the displayed type is the
`time` link regardless of what the scalar table would give — only the
cardinality decoration still applies. -/
theorem C5_date_override (noExclude : Bool) (fd : FieldDescriptor)
    (fields : List FieldV)
    (hm : fd.type ≠ .TYPE_MESSAGE) (hg : fd.type ≠ .TYPE_GROUP)
    (he : fd.type ≠ .TYPE_ENUM)
    (hdate : qContains fd.name "date" = true)
    (hkept : (descriptionOf noExclude fd.loc).2 = false) :
    addField noExclude fd fields =
      fields ++ [{ field_name := fd.name,
                   field_description := (descriptionOf noExclude fd.loc).1,
                   field_type :=
                     if fd.label = .LABEL_OPTIONAL then
                       "<a href=\"/docs/types.php\">time</a>" ++ "?"
                     else if fd.label = .LABEL_REPEATED then
                       "<a href=\"/docs/types.php\">array</a> of "
                         ++ "<a href=\"/docs/types.php\">time</a>"
                     else "<a href=\"/docs/types.php\">time</a>" }] := by
  simp [addField, hm, hg, he, hdate, hkept]

/-- C5 witness: the spec's example — `created_date` of 32-bit integer
kind renders as the `time` link, not as the scalar table's `int`. -/
theorem C5_date_override_witness :
    addField false
      { name := "created_date", type := .TYPE_INT32, message_type_name := "",
        enum_type_name := "", label := .LABEL_REQUIRED, loc := ⟨"", ""⟩ } [] =
      [{ field_name := "created_date", field_description := "",
         field_type := "<a href=\"/docs/types.php\">time</a>" }]
    ∧ "<a href=\"/docs/types.php\">time</a>" ≠ scalarTypeName .TYPE_INT32 := by
  constructor
  · have h := C5_date_override false
      { name := "created_date", type := .TYPE_INT32, message_type_name := "",
        enum_type_name := "", label := .LABEL_REQUIRED, loc := ⟨"", ""⟩ } []
      (by decide) (by decide) (by decide) (by decide) (by decide)
    rw [h]; decide
  · decide

/-! ## Claim C6 — file-header `///` extraction

The claim (and the function's own documentation, main.cpp:122-127) says
the whole run of consecutive `///` lines becomes the description.  The
inner loop of main.cpp:156-159, however, tests `!stream.atEnd()`
*before* appending the line it already holds, so when the `///` run
reaches the end of the file the line read last is silently dropped. -/

/-- The claim's own example file (content continues after the header):
both `///` lines are kept.  But on a file whose entire content is the
two `///` lines, the second line is lost. -/
theorem C6_header_run :
    fileDescriptionOf false
      { name := "a.proto", package := "", message_type := [], enum_type := [],
        source := .ok ["/// Line one", "/// Line two", "", "message M {}"] } "" =
      some ("Line one\nLine two", false, "")
    ∧ fileDescriptionOf false
        { name := "a.proto", package := "", message_type := [], enum_type := [],
          source := .ok ["/// Line one", "/// Line two"] } "" =
        some ("Line one", false, "")
    ∧ "Line one" ≠ "Line one\nLine two" := by
  refine ⟨by decide, by decide, by decide⟩

/-! ## Claim C7 — the paragraph filter

The filter splits at *every* blank-line boundary.  A decomposition of
the rendered text is a first segment followed by separator/segment
pairs; the side conditions below say exactly that each separator is a
blank-line boundary the regex consumes in one match (a line break, any
whitespace — further line breaks included — and a final line break) and
that no further boundary occurs: segments contain no boundary of their
own, a segment's leading whitespace holds no line break (the preceding
match's greedy `\s*` would swallow it), and an interior segment is
nonempty and ends in non-whitespace (a match cannot begin inside it and
extend past its end). -/

theorem matchBlank_none {c : Char} (rest : List Char) (hc : isNl c = false) :
    matchBlank (c :: rest) = none := by
  simp [matchBlank, hc]

theorem lastNlIdx_none {l : List Char} (h : l.all (fun c => !isNl c) = true) :
    lastNlIdx l = none := by
  induction l with
  | nil => rfl
  | cons c cs ih =>
    rw [List.all_cons, Bool.and_eq_true] at h
    rw [lastNlIdx, ih h.2]
    simp only [Bool.not_eq_true'] at h
    simp [h.1]

/-- The text contains no blank-line boundary: the regex matches at none
of its suffixes. -/
def noInnerBoundary (s : String) : Bool :=
  s.data.tails.all fun t => (matchBlank t).isNone

/-- The segment's leading whitespace contains no line break. -/
def leadWsNlFree (s : String) : Bool :=
  (s.data.takeWhile isRegexSpace).all fun c => !isNl c

/-- Empty, or the last character is not whitespace. -/
def endsOkL (l : List Char) : Bool :=
  match l.getLast? with
  | none => true
  | some c => !isRegexSpace c

/-- The segment is empty or ends in a non-whitespace character. -/
def endsNonSpace (s : String) : Bool :=
  endsOkL s.data

/-- `d` is a blank-line separator consumed by one match of the regex: a
line break, then whitespace (line breaks allowed), then a line break. -/
def isBlankSep (d : String) : Bool :=
  match d.data with
  | [] => false
  | c :: rest =>
    isNl c &&
      (match rest.getLast? with
       | none => false
       | some e => isNl e && rest.dropLast.all isRegexSpace)

/-- The text after the first segment: separator/segment pairs,
concatenated. -/
def joinPairsData : List (String × String) → List Char
  | [] => []
  | p :: rest => p.1.data ++ (p.2.data ++ joinPairsData rest)

theorem string_eta (s : String) : (⟨s.data⟩ : String) = s := rfl

theorem isRegexSpace_of_isNl {c : Char} (h : isNl c = true) : isRegexSpace c = true := by
  rw [isNl] at h
  rcases Bool.or_eq_true_iff.mp h with h | h <;>
    · rw [decide_eq_true_eq] at h
      simp [isRegexSpace, h]

theorem takeWhile_append_all {p : Char → Bool} :
    ∀ {l : List Char} (u : List Char), l.all p = true →
      (l ++ u).takeWhile p = l ++ u.takeWhile p
  | [], u, _ => by simp
  | c :: cs, u, h => by
    rw [List.all_cons, Bool.and_eq_true] at h
    rw [List.cons_append, List.takeWhile_cons_of_pos h.1,
      takeWhile_append_all u h.2, List.cons_append]

theorem takeWhile_append_stop {p : Char → Bool} :
    ∀ {l : List Char} (u : List Char) (x : Char), x ∈ l → p x = false →
      (l ++ u).takeWhile p = l.takeWhile p
  | [], _, x, hx, _ => by simp at hx
  | c :: cs, u, x, hx, hpx => by
    by_cases hpc : p c = true
    · have hxcs : x ∈ cs := by
        rcases List.mem_cons.mp hx with rfl | hxcs
        · rw [hpx] at hpc; cases hpc
        · exact hxcs
      rw [List.cons_append, List.takeWhile_cons_of_pos hpc,
        List.takeWhile_cons_of_pos hpc, takeWhile_append_stop u x hxcs hpx]
    · have hpc' : p c = false := by simpa using hpc
      rw [List.cons_append, List.takeWhile_cons_of_neg (by simp [hpc']),
        List.takeWhile_cons_of_neg (by simp [hpc'])]

theorem lastNlIdx_append_nl {tk : List Char} (htk : tk.all (fun c => !isNl c) = true)
    {e : Char} (he : isNl e = true) :
    ∀ mid : List Char, lastNlIdx (mid ++ e :: tk) = some mid.length
  | [] => by
    rw [List.nil_append, lastNlIdx, lastNlIdx_none htk, he]
    rfl
  | m :: ms => by
    rw [List.cons_append, lastNlIdx, lastNlIdx_append_nl htk he ms]
    rfl

/-- A blank-line separator matches in full: the greedy `\s*` backtracks
to the separator's final line break because the following segment's
leading whitespace is line-break-free and (for an interior segment) the
whitespace run cannot leave the segment. -/
theorem matchBlank_boundary {nl₁ e : Char} {mid s u : List Char}
    (h₁ : isNl nl₁ = true) (he : isNl e = true)
    (hmid : mid.all isRegexSpace = true)
    (hs : (s.takeWhile isRegexSpace).all (fun c => !isNl c) = true)
    (hstay : u = [] ∨ ∃ x ∈ s, isRegexSpace x = false) :
    matchBlank (nl₁ :: (mid ++ e :: (s ++ u))) = some (mid.length + 2) := by
  rw [matchBlank, if_pos h₁]
  have hsu : (s ++ u).takeWhile isRegexSpace = s.takeWhile isRegexSpace := by
    rcases hstay with rfl | ⟨x, hx, hpx⟩
    · rw [List.append_nil]
    · exact takeWhile_append_stop u x hx hpx
  have hrun : (mid ++ e :: (s ++ u)).takeWhile isRegexSpace
      = mid ++ e :: (s ++ u).takeWhile isRegexSpace := by
    rw [takeWhile_append_all _ hmid,
      List.takeWhile_cons_of_pos (isRegexSpace_of_isNl he)]
  rw [hrun, hsu, lastNlIdx_append_nl hs he mid]

/-- A position where the regex fails keeps failing when text follows,
provided no whitespace run can escape the current segment. -/
theorem matchBlank_append_none (t : List Char) {c : Char} {rest : List Char}
    (h : matchBlank (c :: rest) = none)
    (hstay : t = [] ∨ isNl c = false ∨ ∃ x ∈ rest, isRegexSpace x = false) :
    matchBlank (c :: (rest ++ t)) = none := by
  by_cases hc : isNl c = true
  · rw [matchBlank, if_pos hc] at h ⊢
    have hnone : lastNlIdx (rest.takeWhile isRegexSpace) = none := by
      cases hl : lastNlIdx (rest.takeWhile isRegexSpace) with
      | none => rfl
      | some i => rw [hl] at h; cases h
    rcases hstay with rfl | hc' | ⟨x, hx, hpx⟩
    · rw [List.append_nil, hnone]
    · rw [hc'] at hc; cases hc
    · rw [takeWhile_append_stop t x hx hpx, hnone]
  · exact matchBlank_none _ (by simpa using hc)

theorem exists_nonspace_of_endsOk {l : List Char} (hne : l ≠ [])
    (h : endsOkL l = true) : ∃ x ∈ l, isRegexSpace x = false := by
  cases hgl : l.getLast? with
  | none => exact absurd (List.getLast?_eq_none_iff.mp hgl) hne
  | some x =>
    rw [endsOkL, hgl] at h
    exact ⟨x, List.mem_of_mem_getLast? hgl, by simpa using h⟩

theorem splitBlank_nil (fuel : Nat) (cur : List Char) (acc : List String) :
    splitBlank fuel [] cur acc = acc ++ [⟨cur.reverse⟩] := by
  cases fuel <;> rfl

/-- Scanning a segment that contains no boundary and (when text
follows) ends in non-whitespace just accumulates its characters. -/
theorem splitBlank_seg :
    ∀ (sd t cur : List Char) (acc : List String) (fuel : Nat),
      (sd.tails.all fun tail => (matchBlank tail).isNone) = true →
      (t = [] ∨ endsOkL sd = true) →
      splitBlank (sd.length + fuel) (sd ++ t) cur acc
        = splitBlank fuel t (sd.reverse ++ cur) acc
  | [], t, cur, acc, fuel, _, _ => by simp
  | c :: rest, t, cur, acc, fuel, hseg, hend => by
    rw [List.tails_cons, List.all_cons, Bool.and_eq_true] at hseg
    have hmb : matchBlank (c :: rest) = none := by
      have := hseg.1
      simpa [Option.isNone_iff_eq_none] using this
    have hstay : t = [] ∨ isNl c = false ∨ ∃ x ∈ rest, isRegexSpace x = false := by
      rcases hend with rfl | hend
      · exact Or.inl rfl
      · right
        cases rest with
        | nil =>
          left
          cases hnlc : isNl c with
          | false => rfl
          | true =>
            exfalso
            simp [endsOkL, isRegexSpace_of_isNl hnlc] at hend
        | cons r rs =>
          right
          refine exists_nonspace_of_endsOk (by simp) ?_
          rw [endsOkL] at hend ⊢
          rwa [List.getLast?_cons_cons] at hend
    have hendr : t = [] ∨ endsOkL rest = true := by
      rcases hend with rfl | hend
      · exact Or.inl rfl
      · right
        cases rest with
        | nil => rfl
        | cons r rs =>
          rw [endsOkL] at hend ⊢
          rwa [List.getLast?_cons_cons] at hend
    have harr : (c :: rest).length + fuel = (rest.length + fuel) + 1 := by
      simp [Nat.succ_add, Nat.add_comm, Nat.add_assoc, Nat.add_left_comm]
    rw [List.cons_append, harr, splitBlank, matchBlank_append_none t hmb hstay,
      splitBlank_seg rest t (c :: cur) acc fuel hseg.2 hendr]
    simp

/-- The scan of a decomposed text produces exactly its segments. -/
theorem splitBlank_decompose :
    ∀ (ps : List (String × String)) (s0 : String) (cur : List Char)
      (acc : List String) (fuel : Nat),
      noInnerBoundary s0 = true →
      (ps = [] ∨ endsNonSpace s0 = true) →
      (∀ p ∈ ps, isBlankSep p.1 = true ∧ noInnerBoundary p.2 = true ∧
        leadWsNlFree p.2 = true) →
      (∀ p ∈ ps.dropLast, p.2.data ≠ [] ∧ endsNonSpace p.2 = true) →
      splitBlank ((s0.data ++ joinPairsData ps).length + fuel)
          (s0.data ++ joinPairsData ps) cur acc
        = acc ++ (⟨cur.reverse ++ s0.data⟩ : String)
            :: ps.map fun p => (⟨p.2.data⟩ : String)
  | [], s0, cur, acc, fuel, h0, _, _, _ => by
    simp only [joinPairsData]
    rw [show (s0.data ++ ([] : List Char)).length = s0.data.length from by simp,
      splitBlank_seg s0.data [] cur acc fuel h0 (Or.inl rfl), splitBlank_nil]
    simp
  | (d, s) :: rest, s0, cur, acc, fuel, h0, hend, hall, hint => by
    change splitBlank ((s0.data ++ (d.data ++ (s.data ++ joinPairsData rest))).length + fuel)
      (s0.data ++ (d.data ++ (s.data ++ joinPairsData rest))) cur acc = _
    have hd := (hall (d, s) (List.mem_cons_self _ _)).1
    have hs := (hall (d, s) (List.mem_cons_self _ _)).2.1
    have hlead := (hall (d, s) (List.mem_cons_self _ _)).2.2
    have hendS : endsNonSpace s0 = true := by
      rcases hend with h | h
      · cases h
      · exact h
    -- dissect the separator
    rw [isBlankSep] at hd
    rcases hda : d.data with _ | ⟨nl₁, restd⟩
    · rw [hda] at hd; cases hd
    rw [hda] at hd
    rw [Bool.and_eq_true] at hd
    rcases hgl : restd.getLast? with _ | e
    · rw [hgl] at hd; exact absurd hd.2 (by simp)
    rw [hgl] at hd
    rw [Bool.and_eq_true] at hd
    have hrne : restd ≠ [] := by
      intro hn; rw [hn] at hgl; cases hgl
    have hrsplit : restd = restd.dropLast ++ [e] := by
      have h1 := List.dropLast_append_getLast hrne
      have h2 : restd.getLast hrne = e := by
        have := List.getLast?_eq_getLast restd hrne
        rw [hgl] at this
        exact (Option.some.injEq _ _ ▸ this.symm : _)
      rw [← h2]; exact h1.symm
    -- the text after scanning the first segment
    have hstay : joinPairsData rest = [] ∨ ∃ x ∈ s.data, isRegexSpace x = false := by
      cases rest with
      | nil => exact Or.inl rfl
      | cons q qs =>
        right
        have hi := hint (d, s) (by simp)
        exact exists_nonspace_of_endsOk hi.1 hi.2
    have hmatch : matchBlank (nl₁ :: (restd.dropLast ++ e :: (s.data ++ joinPairsData rest)))
        = some (restd.dropLast.length + 2) :=
      matchBlank_boundary hd.1 hd.2.1 hd.2.2 hlead hstay
    -- lengths
    have hlen1 : (s0.data ++ (nl₁ :: restd ++ (s.data ++ joinPairsData rest))).length + fuel
        = s0.data.length + ((nl₁ :: restd ++ (s.data ++ joinPairsData rest)).length + fuel) := by
      simp [Nat.add_assoc]
    rw [hlen1, splitBlank_seg s0.data _ cur acc _ h0 (Or.inr hendS)]
    -- rewrite the separator into its dissected form
    have hform : nl₁ :: restd ++ (s.data ++ joinPairsData rest)
        = nl₁ :: (restd.dropLast ++ e :: (s.data ++ joinPairsData rest)) := by
      conv_lhs => rw [hrsplit]
      simp
    rw [hform]
    have hlen2 : (nl₁ :: (restd.dropLast ++ e :: (s.data ++ joinPairsData rest))).length + fuel
        = ((restd.dropLast ++ e :: (s.data ++ joinPairsData rest)).length + fuel) + 1 := by
      simp only [List.length_cons]
      omega
    rw [hlen2, splitBlank, hmatch]
    simp only []
    have hdrop : (nl₁ :: (restd.dropLast ++ e :: (s.data ++ joinPairsData rest))).drop
        (restd.dropLast.length + 2)
        = s.data ++ joinPairsData rest := by
      rw [show restd.dropLast.length + 2 = restd.dropLast.length + 1 + 1 from rfl,
        List.drop_succ_cons,
        show restd.dropLast.length + 1 = restd.dropLast.length + 1 from rfl]
      rw [show restd.dropLast ++ e :: (s.data ++ joinPairsData rest)
          = (restd.dropLast ++ [e]) ++ (s.data ++ joinPairsData rest) from by simp]
      rw [show restd.dropLast.length + 1 = (restd.dropLast ++ [e]).length from by simp]
      exact List.drop_left _ _
    rw [hdrop]
    have hlen3 : (restd.dropLast ++ e :: (s.data ++ joinPairsData rest)).length + fuel
        = (s.data ++ joinPairsData rest).length + (restd.dropLast.length + 1 + fuel) := by
      simp only [List.length_cons, List.length_append]
      omega
    rw [hlen3]
    have hrest0 : rest = [] ∨ endsNonSpace s = true := by
      cases rest with
      | nil => exact Or.inl rfl
      | cons q qs => exact Or.inr (hint (d, s) (by simp)).2
    have hallr : ∀ p ∈ rest, isBlankSep p.1 = true ∧ noInnerBoundary p.2 = true ∧
        leadWsNlFree p.2 = true := fun p hp => hall p (List.mem_cons_of_mem _ hp)
    have hintr : ∀ p ∈ rest.dropLast, p.2.data ≠ [] ∧ endsNonSpace p.2 = true := by
      intro p hp
      cases rest with
      | nil => simp at hp
      | cons q qs =>
        refine hint p ?_
        rw [List.dropLast_cons₂]
        exact List.mem_cons_of_mem _ hp
    rw [splitBlank_decompose rest s []
      (acc ++ [(⟨(s0.data.reverse ++ cur).reverse⟩ : String)])
      (restd.dropLast.length + 1 + fuel) hs hrest0 hallr hintr]
    simp

/-- C7: the paragraph filter splits the already-rendered text at every
blank-line boundary, joins the segments with `</p><p>` and wraps the
result in `<p>`…`</p>`.  The text is given as any decomposition into
segments separated by blank-line boundaries (each separator one line
break, optional whitespace — further line breaks allowed — and a final
line break, so `\n\n`, `\r\r`, `\r\n\r\n` and mixtures all qualify);
the side conditions state that these are exactly the boundaries:
segments contain no boundary themselves, their leading whitespace has
no line break, and interior segments are nonempty ending in
non-whitespace.  Segments may contain lone line breaks. -/
theorem C7_paragraph_filter (s0 : String) (ps : List (String × String))
    (h0 : noInnerBoundary s0 = true)
    (hend : ps = [] ∨ endsNonSpace s0 = true)
    (hall : ∀ p ∈ ps, isBlankSep p.1 = true ∧ noInnerBoundary p.2 = true ∧
      leadWsNlFree p.2 = true)
    (hint : ∀ p ∈ ps.dropLast, p.2.data ≠ [] ∧ endsNonSpace p.2 = true) :
    pFilter (s0 ++ ⟨joinPairsData ps⟩) =
      "<p>" ++ qJoin (s0 :: ps.map fun p => p.2) "</p><p>" ++ "</p>" := by
  rcases s0 with ⟨l0⟩
  rw [pFilter]
  have hdata : ((⟨l0⟩ ++ (⟨joinPairsData ps⟩ : String) : String)).data
      = l0 ++ joinPairsData ps := rfl
  rw [hdata]
  have h := splitBlank_decompose ps ⟨l0⟩ [] [] 0 h0 hend hall hint
  rw [Nat.add_zero] at h
  rw [show ((⟨l0⟩ : String)).data = l0 from rfl] at h
  rw [h]
  have hmap : (ps.map fun p => (⟨p.2.data⟩ : String)) = ps.map fun p => p.2 := by
    apply List.map_congr_left
    intro p _
    exact string_eta p.2
  rw [hmap]
  rfl

/-- C7 witness: the spec's `Hello`/`World` example, and a text with two
boundaries in `\r\n`/`\r` forms, interior whitespace in a boundary, and
a segment containing a lone line break. -/
theorem C7_paragraph_filter_witness :
    pFilter "Hello\n\nWorld" = "<p>Hello</p><p>World</p>"
    ∧ pFilter "A\r\n\t\r\nB\nline\r\rC" = "<p>A</p><p>B\nline</p><p>C</p>" := by
  constructor
  · exact C7_paragraph_filter "Hello" [("\n\n", "World")]
      (by decide) (by decide) (by decide) (by decide)
  · exact C7_paragraph_filter "A" [("\r\n\t\r\n", "B\nline"), ("\r\r", "C")]
      (by decide) (by decide) (by decide) (by decide)

/-! ## Claim C9 — parameter parsing -/

/-- C9: parameter parsing succeeds exactly for two comma-separated
tokens, or three with the third being the literal `no-exclude`; every
malformed parameter string leaves the deterministic usage message
(which enumerates the built-in format names) as the error. -/
theorem C9_parameter_parsing (formats : List String)
    (fs : String → Except String String) (parameter : String)
    (ctx : DocGeneratorContext) (error : String) :
    ((parseParameter formats fs parameter ctx error).1 = true ↔
      ((qSplitChar parameter ',').length = 2 ∨
        ((qSplitChar parameter ',').length = 3 ∧
          (qSplitChar parameter ',').getD 2 "" = "no-exclude")))
    ∧ ((parseParameter formats fs parameter ctx error).1 = false →
        (parseParameter formats fs parameter ctx error).2.2 = usage formats) := by
  simp only [parseParameter]
  split_ifs with h1 h2 h3
  · refine ⟨⟨fun h => by simp at h, fun h => ?_⟩, fun _ => rfl⟩
    rcases h with h | h
    · exact absurd h h1.1
    · exact absurd h.1 h1.2
  · refine ⟨⟨fun h => by simp at h, fun h => ?_⟩, fun _ => rfl⟩
    rcases h with h | h
    · exfalso; obtain ⟨h21, h22⟩ := h2; omega
    · exact absurd h.2 h2.2
  · exact ⟨⟨fun _ => by tauto, fun _ => rfl⟩, fun h => by simp at h⟩
  · exact ⟨⟨fun _ => by tauto, fun _ => rfl⟩, fun h => by simp at h⟩

/-- C9 witness: a one-token parameter string is rejected with the usage
message. -/
theorem C9_parameter_parsing_witness :
    (parseParameter ["html", "docbook"] (fun _ => .error "unreadable")
      "single" ⟨"", "", false⟩ "").1 = false
    ∧ (parseParameter ["html", "docbook"] (fun _ => .error "unreadable")
        "single" ⟨"", "", false⟩ "").2.2 = usage ["html", "docbook"] := by
  have h := C9_parameter_parsing ["html", "docbook"]
    (fun _ => .error "unreadable") "single" ⟨"", "", false⟩ ""
  have hf : (parseParameter ["html", "docbook"] (fun _ => .error "unreadable")
      "single" ⟨"", "", false⟩ "").1 = false := by
    cases hb : (parseParameter ["html", "docbook"] (fun _ => .error "unreadable")
      "single" ⟨"", "", false⟩ "").1 with
    | false => rfl
    | true => exact absurd (h.1.mp hb) (by decide)
  exact ⟨hf, h.2 hf⟩

/-! ## Claim C10 — stored file names are base names -/

theorem qFileName_no_slash (p : String) :
    (qFileName p).data.all (fun c => !(c = '/')) = true := by
  rw [qFileName, List.all_eq_true]
  intro c hc
  rw [List.mem_reverse] at hc
  have := List.mem_takeWhile_imp hc
  simpa using this

theorem qFileName_suffix (p : String) : (qFileName p).data <:+ p.data := by
  rw [qFileName]
  have h := (List.takeWhile_prefix (l := p.data.reverse)
    (p := fun c => decide ¬(c = '/'))).reverse
  simpa using h

theorem dropWhile_head_false {p : Char → Bool} (l : List Char) (c : Char) (cs : List Char) :
    l.dropWhile p = c :: cs → p c = false := by
  induction l with
  | nil => intro h; cases h
  | cons a as ih =>
    intro h
    rw [List.dropWhile_cons] at h
    by_cases hpa : p a = true
    · rw [if_pos hpa] at h
      exact ih h
    · rw [if_neg hpa] at h
      injection h with h1 _
      rw [← h1]
      simpa using hpa

/-- Maximality: the part of the path preceding the stored name is empty
or ends in `/`, so the stored name is the full final path component,
not merely some slash-free suffix. -/
theorem qFileName_maximal (p : String) :
    ∃ pre : List Char, p.data = pre ++ (qFileName p).data
      ∧ (pre = [] ∨ pre.getLast? = some '/') := by
  refine ⟨(p.data.reverse.dropWhile (· ≠ '/')).reverse, ?_, ?_⟩
  · rw [qFileName]
    conv_lhs => rw [← List.reverse_reverse p.data,
      ← List.takeWhile_append_dropWhile (· ≠ '/') p.data.reverse]
    rw [List.reverse_append]
  · cases hd : p.data.reverse.dropWhile (· ≠ '/') with
    | nil => exact Or.inl rfl
    | cons c cs =>
      right
      rw [List.getLast?_reverse]
      have hc := dropWhile_head_false _ c cs hd
      simp only [decide_not, Bool.not_eq_false', decide_eq_true_eq] at hc
      simp [hc]

/-- C10: every file node the walk appends stores, as its file name, the
final component of the host-supplied path: a slash-free suffix whose
preceding prefix is empty or ends in `/`; the package is taken as
supplied and the description as extracted from the file header. -/
theorem C10_file_basename (noExclude : Bool)
    (sortF : List FieldV → List FieldV) (sortE : List EnumValueV → List EnumValueV)
    (fd : FileDescriptor) (files : List FileV) (error e : String) (f : FileV)
    (h : addFile noExclude sortF sortE fd files error = some (files ++ [f], e)) :
    f.file_name.data.all (fun c => !(c = '/')) = true
    ∧ f.file_name.data <:+ fd.name.data
    ∧ (∃ pre : List Char, fd.name.data = pre ++ f.file_name.data
        ∧ (pre = [] ∨ pre.getLast? = some '/'))
    ∧ f.file_package = fd.package
    ∧ ∃ excl err, fileDescriptionOf noExclude fd error = some (f.file_description, excl, err) := by
  rw [addFile] at h
  cases hdesc : fileDescriptionOf noExclude fd error with
  | none => rw [hdesc] at h; simp at h
  | some r =>
    rw [hdesc, Option.map_some', Option.some.injEq] at h
    by_cases hex : r.2.1 = true
    · rw [if_pos hex] at h
      exfalso
      have hlen := congrArg (fun p => p.1.length) h
      simp at hlen
    · rw [if_neg hex] at h
      have h1 := congrArg Prod.fst h
      simp only at h1
      simp at h1
      subst h1
      refine ⟨qFileName_no_slash fd.name, qFileName_suffix fd.name,
        qFileName_maximal fd.name, rfl, r.2.1, r.2.2, rfl⟩

/-- C10 witness: a path with directories keeps exactly `example.proto`,
and the prefix it cuts off ends in `/`. -/
theorem C10_file_basename_witness :
    (("example.proto" : String).data.all (fun c => !(c = '/')) = true)
    ∧ ("example.proto" : String).data <:+ ("protos/v1/example.proto" : String).data
    ∧ (∃ pre : List Char, ("protos/v1/example.proto" : String).data
        = pre ++ ("example.proto" : String).data
        ∧ (pre = [] ∨ pre.getLast? = some '/')) := by
  have h := C10_file_basename false stableSortFields stableSortValues
    { name := "protos/v1/example.proto", package := "demo",
      source := .ok ["syntax = \"proto2\";"], message_type := [], enum_type := [] }
    [] "" ""
    { file_name := "example.proto", file_description := "",
      file_package := "demo", file_messages := [], file_enums := [] }
    (by rw [addFile,
          show fileDescriptionOf false
            { name := "protos/v1/example.proto", package := "demo",
              source := .ok ["syntax = \"proto2\";"], message_type := [], enum_type := [] } "" =
            some ("", false, "") from by decide,
          Option.map_some']
        simp [addMessagesList, addEnums]
        decide)
  exact ⟨h.1, h.2.1, h.2.2.1⟩

/-! ## Claim C2 — exclusion invariants -/

/-- C2: (1) an excluded message contributes nothing to the accumulated
message and enum lists — in particular nothing nested beneath it (its
fields, nested messages and nested enums) ever reaches the tree; (2) an
excluded enum contributes nothing; (3) an excluded field disappears
from the field loop's output, which is exactly the output for the
sibling list without it; (4) likewise for an excluded enum value; and
(5) whatever `std::sort` does, the attached sibling lists are sorted
with respect to the `nameLessThan` comparator. -/
theorem C2_exclusion :
    (∀ (noExclude : Bool) (sortF : List FieldV → List FieldV)
        (sortE : List EnumValueV → List EnumValueV) (d : Descriptor)
        (acc : List MessageV × List EnumV),
      (descriptionOf noExclude d.loc).2 = true →
      addMessages noExclude sortF sortE d acc = acc)
    ∧ (∀ (noExclude : Bool) (sortE : List EnumValueV → List EnumValueV)
        (ed : EnumDescriptor) (enums : List EnumV),
      (descriptionOf noExclude ed.loc).2 = true →
      addEnum noExclude sortE ed enums = enums)
    ∧ (∀ (noExclude : Bool) (fd : FieldDescriptor)
        (pre post : List FieldDescriptor),
      (descriptionOf noExclude fd.loc).2 = true →
      addFields noExclude (pre ++ fd :: post) [] = addFields noExclude (pre ++ post) [])
    ∧ (∀ (noExclude : Bool) (vd : EnumValueDescriptor)
        (pre post : List EnumValueDescriptor),
      (descriptionOf noExclude vd.loc).2 = true →
      addEnumValues noExclude (pre ++ vd :: post) [] = addEnumValues noExclude (pre ++ post) [])
    ∧ (∀ (noExclude : Bool) (sortF : List FieldV → List FieldV),
      ValidSortF sortF → ∀ fds, SortedFields (messageFields noExclude sortF fds))
    ∧ (∀ (noExclude : Bool) (sortE : List EnumValueV → List EnumValueV),
      ValidSortE sortE → ∀ vds, SortedValues (sortE (addEnumValues noExclude vds []))) := by
  refine ⟨?_, ?_, ?_, ?_, ?_, ?_⟩
  · intro noExclude sortF sortE d acc h
    cases d with
    | mk dname dloc dfield dnested denums =>
      rw [Descriptor.loc] at h
      rw [addMessages, h]
      simp
  · intro noExclude sortE ed enums h
    rw [addEnum, h]
    simp
  · intro noExclude fd pre post h
    rw [addFields_eq, addFields_eq, List.filter_append, List.filter_append,
      List.filter_cons_of_neg]
    simp [h]
  · intro noExclude vd pre post h
    rw [addEnumValues_eq, addEnumValues_eq, List.filter_append, List.filter_append,
      List.filter_cons_of_neg]
    simp [h]
  · intro noExclude sortF hs fds
    exact (hs (addFields noExclude fds [])).2
  · intro noExclude sortE hs vds
    exact (hs (addEnumValues noExclude vds [])).2

/-- A message marked `@exclude`, with a field, a nested message and a
nested enum beneath it. -/
def excludedMsg : Descriptor :=
  .mk "Hidden" ⟨"* @exclude secret", ""⟩
    [{ name := "inner_field", type := .TYPE_INT32, message_type_name := "",
       enum_type_name := "", label := .LABEL_REQUIRED, loc := ⟨"", ""⟩ }]
    [.mk "Nested" ⟨"", ""⟩ [] [] []]
    [{ name := "NestedEnum", value := [], loc := ⟨"", ""⟩ }]

/-- An excluded field used in the witnesses. -/
def excludedFld : FieldDescriptor :=
  { name := "gone", type := .TYPE_STRING, message_type_name := "",
    enum_type_name := "", label := .LABEL_REQUIRED,
    loc := ⟨"/ @exclude", ""⟩ }

/-- A kept field used in the witnesses. -/
def keptFld : FieldDescriptor :=
  { name := "kept", type := .TYPE_STRING, message_type_name := "",
    enum_type_name := "", label := .LABEL_REQUIRED, loc := ⟨"", ""⟩ }

/-- C2 witness: the excluded example message (with nested content)
leaves the accumulator untouched, and the field loop over
`[keptFld, excludedFld]` equals the loop over `[keptFld]` alone. -/
theorem C2_exclusion_witness :
    addMessages false stableSortFields stableSortValues excludedMsg ([], []) = ([], [])
    ∧ addFields false [keptFld, excludedFld] [] = addFields false [keptFld] [] := by
  constructor
  · exact C2_exclusion.1 false stableSortFields stableSortValues excludedMsg ([], [])
      (by decide)
  · exact C2_exclusion.2.2.1 false excludedFld [keptFld] [] (by decide)

/-! ## Claim C1 — sibling sorting

The claim asserts that the attached lists equal the *stable* ascending
sort of the filtered items.  `std::sort` promises only a sorted
permutation; with duplicate keys a conforming implementation may
deliver either order, so the claim fails as stated and is witnessed
false by an explicit conforming sort behaviour.  With pairwise-distinct
names (which protobuf guarantees for real schemas) the sorted
permutation is unique and the claim holds. -/

theorem nameLessThanFields_false_iff (a b : FieldV) :
    (nameLessThanFields b a = false) ↔ fieldKeyLE a b := by
  rw [nameLessThanFields_eq]; exact Iff.rfl

theorem nameLessThanValues_false_iff (a b : EnumValueV) :
    (nameLessThanValues b a = false) ↔ valueKeyLE a b := by
  rw [nameLessThanValues_eq]; exact Iff.rfl

theorem sortedFields_chain_keyLE {l : List FieldV} (h : SortedFields l) :
    l.Chain' fieldKeyLE :=
  List.Chain'.imp (fun a b hab => (nameLessThanFields_false_iff a b).mp hab) h

theorem sortedValues_chain_keyLE {l : List EnumValueV} (h : SortedValues l) :
    l.Chain' valueKeyLE :=
  List.Chain'.imp (fun a b hab => (nameLessThanValues_false_iff a b).mp hab) h

/-- The strict name order on field hashes. -/
def fieldKeyLT (a b : FieldV) : Prop := strLt a.field_name b.field_name = true

/-- The strict name order on enum-value hashes. -/
def valueKeyLT (a b : EnumValueV) : Prop := strLt a.value_name b.value_name = true

instance : IsAntisymm FieldV fieldKeyLT := ⟨fun a b h h' => by
  have hf : strLt b.field_name a.field_name = false := charListLt_asymm _ _ h
  rw [fieldKeyLT, hf] at h'
  simp at h'⟩

instance : IsAntisymm EnumValueV valueKeyLT := ⟨fun a b h h' => by
  have hf : strLt b.value_name a.value_name = false := charListLt_asymm _ _ h
  rw [valueKeyLT, hf] at h'
  simp at h'⟩

theorem fieldKeyLT_of_le_ne {a b : FieldV} (hle : fieldKeyLE a b)
    (hne : a.field_name ≠ b.field_name) : fieldKeyLT a b := by
  cases hx : strLt a.field_name b.field_name with
  | true => exact hx
  | false => exact absurd (strLt_conn hx hle) hne

theorem valueKeyLT_of_le_ne {a b : EnumValueV} (hle : valueKeyLE a b)
    (hne : a.value_name ≠ b.value_name) : valueKeyLT a b := by
  cases hx : strLt a.value_name b.value_name with
  | true => exact hx
  | false => exact absurd (strLt_conn hx hle) hne

/-- Two sorted permutations of each other with pairwise-distinct name
keys coincide. -/
theorem eq_of_perm_sorted_nodup_fields {l₁ l₂ : List FieldV} (hp : l₁.Perm l₂)
    (hs₁ : l₁.Pairwise fieldKeyLE) (hs₂ : l₂.Pairwise fieldKeyLE)
    (hnd : (l₁.map FieldV.field_name).Nodup) : l₁ = l₂ := by
  have hnd₂ : (l₂.map FieldV.field_name).Nodup := ((hp.map _).nodup_iff).mp hnd
  rw [List.Nodup, List.pairwise_map] at hnd hnd₂
  have hs₁' : l₁.Sorted fieldKeyLT :=
    (hnd.and hs₁).imp fun h => fieldKeyLT_of_le_ne h.2 h.1
  have hs₂' : l₂.Sorted fieldKeyLT :=
    (hnd₂.and hs₂).imp fun h => fieldKeyLT_of_le_ne h.2 h.1
  exact List.eq_of_perm_of_sorted hp hs₁' hs₂'

/-- Two sorted permutations of each other with pairwise-distinct name
keys coincide. -/
theorem eq_of_perm_sorted_nodup_values {l₁ l₂ : List EnumValueV} (hp : l₁.Perm l₂)
    (hs₁ : l₁.Pairwise valueKeyLE) (hs₂ : l₂.Pairwise valueKeyLE)
    (hnd : (l₁.map EnumValueV.value_name).Nodup) : l₁ = l₂ := by
  have hnd₂ : (l₂.map EnumValueV.value_name).Nodup := ((hp.map _).nodup_iff).mp hnd
  rw [List.Nodup, List.pairwise_map] at hnd hnd₂
  have hs₁' : l₁.Sorted valueKeyLT :=
    (hnd.and hs₁).imp fun h => valueKeyLT_of_le_ne h.2 h.1
  have hs₂' : l₂.Sorted valueKeyLT :=
    (hnd₂.and hs₂).imp fun h => valueKeyLT_of_le_ne h.2 h.1
  exact List.eq_of_perm_of_sorted hp hs₁' hs₂'

theorem pairwise_of_chain_fields {l : List FieldV} (h : l.Chain' fieldKeyLE) :
    l.Pairwise fieldKeyLE :=
  List.chain'_iff_pairwise.mp h

theorem pairwise_of_chain_values {l : List EnumValueV} (h : l.Chain' valueKeyLE) :
    l.Pairwise valueKeyLE :=
  List.chain'_iff_pairwise.mp h

/-- C1 (amended): for every behaviour `std::sort` may exhibit, the
field list attached to a message and the value list attached to an enum
are permutations of the exclusion-filtered items in ascending
(`field_name` / `value_name`) key order; when the kept names are
pairwise distinct the result is moreover exactly the stable ascending
sort by the name key.  (The relative order of equal names is *not*
pinned down; see the counterexample.) -/
theorem C1_sibling_sort :
    (∀ (noExclude : Bool) (sortF : List FieldV → List FieldV), ValidSortF sortF →
      ∀ fds : List FieldDescriptor,
        ((fds.filter fun fd => !(descriptionOf noExclude fd.loc).2).map
            (toFieldV noExclude)).Perm (messageFields noExclude sortF fds)
        ∧ (messageFields noExclude sortF fds).Chain' fieldKeyLE
        ∧ ((((fds.filter fun fd => !(descriptionOf noExclude fd.loc).2).map
              (toFieldV noExclude)).map FieldV.field_name).Nodup →
            messageFields noExclude sortF fds =
              stableSortFields ((fds.filter fun fd => !(descriptionOf noExclude fd.loc).2).map
                (toFieldV noExclude))))
    ∧ (∀ (noExclude : Bool) (sortE : List EnumValueV → List EnumValueV), ValidSortE sortE →
      ∀ vds : List EnumValueDescriptor,
        ((vds.filter fun vd => !(descriptionOf noExclude vd.loc).2).map
            (toEnumValueV noExclude)).Perm (sortE (addEnumValues noExclude vds []))
        ∧ (sortE (addEnumValues noExclude vds [])).Chain' valueKeyLE
        ∧ ((((vds.filter fun vd => !(descriptionOf noExclude vd.loc).2).map
              (toEnumValueV noExclude)).map EnumValueV.value_name).Nodup →
            sortE (addEnumValues noExclude vds []) =
              stableSortValues ((vds.filter fun vd => !(descriptionOf noExclude vd.loc).2).map
                (toEnumValueV noExclude)))) := by
  constructor
  · intro noExclude sortF hs fds
    have hkept : addFields noExclude fds [] =
        (fds.filter fun fd => !(descriptionOf noExclude fd.loc).2).map (toFieldV noExclude) := by
      rw [addFields_eq]; rfl
    have hperm : ((fds.filter fun fd => !(descriptionOf noExclude fd.loc).2).map
        (toFieldV noExclude)).Perm (messageFields noExclude sortF fds) := by
      rw [messageFields, hkept]
      exact (hs _).1
    have hchain : (messageFields noExclude sortF fds).Chain' fieldKeyLE :=
      sortedFields_chain_keyLE (hs _).2
    refine ⟨hperm, hchain, fun hnd => ?_⟩
    refine eq_of_perm_sorted_nodup_fields ?_ (pairwise_of_chain_fields hchain)
      (List.sorted_insertionSort fieldKeyLE _) (((hperm.map _).nodup_iff).mp hnd)
    exact hperm.symm.trans (List.perm_insertionSort fieldKeyLE _).symm
  · intro noExclude sortE hs vds
    have hkept : addEnumValues noExclude vds [] =
        (vds.filter fun vd => !(descriptionOf noExclude vd.loc).2).map (toEnumValueV noExclude) := by
      rw [addEnumValues_eq]; rfl
    have hperm : ((vds.filter fun vd => !(descriptionOf noExclude vd.loc).2).map
        (toEnumValueV noExclude)).Perm (sortE (addEnumValues noExclude vds [])) := by
      rw [hkept]
      exact (hs _).1
    have hchain : (sortE (addEnumValues noExclude vds [])).Chain' valueKeyLE :=
      sortedValues_chain_keyLE (hs _).2
    refine ⟨hperm, hchain, fun hnd => ?_⟩
    refine eq_of_perm_sorted_nodup_values ?_ (pairwise_of_chain_values hchain)
      (List.sorted_insertionSort valueKeyLE _) (((hperm.map _).nodup_iff).mp hnd)
    exact hperm.symm.trans (List.perm_insertionSort valueKeyLE _).symm

/-- Two sibling fields sharing the name `a`, distinguishable by their
descriptions. -/
def dupFld1 : FieldDescriptor :=
  { name := "a", type := .TYPE_STRING, message_type_name := "",
    enum_type_name := "", label := .LABEL_REQUIRED, loc := ⟨"/ first", ""⟩ }

/-- The second duplicate-named sibling. -/
def dupFld2 : FieldDescriptor :=
  { name := "a", type := .TYPE_STRING, message_type_name := "",
    enum_type_name := "", label := .LABEL_REQUIRED, loc := ⟨"/ second", ""⟩ }

/-- A conforming `std::sort` behaviour that happens to reverse ties:
sort the reversed input stably.  Its output is still a sorted
permutation, which is all `std::sort` promises. -/
def swapSortF (l : List FieldV) : List FieldV :=
  stableSortFields l.reverse

theorem validSortF_swapSortF : ValidSortF swapSortF := fun l =>
  ⟨(l.reverse_perm.symm.trans (List.perm_insertionSort fieldKeyLE l.reverse).symm),
   chain_of_sorted_fields (List.sorted_insertionSort fieldKeyLE l.reverse)⟩

/-- C1 is false as stated: `swapSortF` is a behaviour `std::sort` is
permitted to exhibit, yet on two equal-named fields the attached list
is the reverse of the stable ascending sort of the filtered items —
equal names do not keep their original relative order. -/
theorem C1_counterexample :
    ValidSortF swapSortF
    ∧ messageFields false swapSortF [dupFld1, dupFld2] =
        [toFieldV false dupFld2, toFieldV false dupFld1]
    ∧ stableSortFields
        (([dupFld1, dupFld2].filter fun fd => !(descriptionOf false fd.loc).2).map
          (toFieldV false)) =
        [toFieldV false dupFld1, toFieldV false dupFld2]
    ∧ messageFields false swapSortF [dupFld1, dupFld2] ≠
        stableSortFields
          (([dupFld1, dupFld2].filter fun fd => !(descriptionOf false fd.loc).2).map
            (toFieldV false)) := by
  refine ⟨validSortF_swapSortF, by decide, by decide, by decide⟩

/-- Fields named `zeta`, `alpha`, `mu` (the spec's §8 ordering
example). -/
def zetaFld : FieldDescriptor :=
  { name := "zeta", type := .TYPE_STRING, message_type_name := "",
    enum_type_name := "", label := .LABEL_REQUIRED, loc := ⟨"", ""⟩ }

/-- See `zetaFld`. -/
def alphaFld : FieldDescriptor :=
  { name := "alpha", type := .TYPE_STRING, message_type_name := "",
    enum_type_name := "", label := .LABEL_REQUIRED, loc := ⟨"", ""⟩ }

/-- See `zetaFld`. -/
def muFld : FieldDescriptor :=
  { name := "mu", type := .TYPE_STRING, message_type_name := "",
    enum_type_name := "", label := .LABEL_REQUIRED, loc := ⟨"", ""⟩ }

/-- C1 witness: the amended theorem applied to the stable behaviour and
the spec's `zeta`/`alpha`/`mu` example, plus the concrete rendered
order `alpha, mu, zeta`. -/
theorem C1_sibling_sort_witness :
    ((([zetaFld, alphaFld, muFld].filter fun fd => !(descriptionOf false fd.loc).2).map
        (toFieldV false)).Perm (messageFields false stableSortFields [zetaFld, alphaFld, muFld])
    ∧ (messageFields false stableSortFields [zetaFld, alphaFld, muFld]).Chain' fieldKeyLE
    ∧ (((([zetaFld, alphaFld, muFld].filter fun fd => !(descriptionOf false fd.loc).2).map
          (toFieldV false)).map FieldV.field_name).Nodup →
        messageFields false stableSortFields [zetaFld, alphaFld, muFld] =
          stableSortFields (([zetaFld, alphaFld, muFld].filter
            fun fd => !(descriptionOf false fd.loc).2).map (toFieldV false))))
    ∧ messageFields false stableSortFields [zetaFld, alphaFld, muFld] =
        [toFieldV false alphaFld, toFieldV false muFld, toFieldV false zetaFld] := by
  refine ⟨C1_sibling_sort.1 false stableSortFields validSortF_stableSortFields
    [zetaFld, alphaFld, muFld], by decide⟩

/-! ## Claim C8 — no output before successful, complete rendering -/

/-- What a single `Generate` callback can write: nothing on any failure
path, nothing when the file is not the last, and on a successful last
file exactly the one blob produced by a successful `render` of the
final state. -/
theorem Generate_spec (eng : Engine) (parameter : String) (fd : FileDescriptor)
    (isFirst isLast : Bool) (ctx : DocGeneratorContext) (files : List FileV)
    (error : String) (g : GenOutcome)
    (h : Generate eng parameter fd isFirst isLast ctx files error = some g) :
    (g.ok = false → g.writes = [])
    ∧ (isLast = false → g.writes = [])
    ∧ (g.ok = true → isLast = true →
        ∃ w, g.writes = [w] ∧ render eng g.ctx g.files = .ok w) := by
  rw [Generate] at h
  generalize hpe : (if isFirst = true then
      parseParameter eng.formats eng.fsTemplates parameter ctx error
    else (true, ctx, error)) = pe at h
  split at h
  · cases h
    exact ⟨fun _ => rfl, fun _ => rfl, fun hq _ => by simp at hq⟩
  · split at h
    · cases h
    · split at h
      · cases h
        exact ⟨fun _ => rfl, fun _ => rfl, fun hq _ => by simp at hq⟩
      · split at h
        · split at h
          · cases h
            exact ⟨fun _ => rfl, fun _ => rfl, fun hq _ => by simp at hq⟩
          · cases h
            rename_i hrok
            exact ⟨fun hq => by simp at hq,
              fun hl => by simp_all,
              fun _ _ => ⟨_, rfl, hrok⟩⟩
        · cases h
          rename_i hlast
          refine ⟨fun _ => rfl, fun _ => rfl, fun _ hl => absurd hl hlast⟩

/-- The loop invariant behind C8: a run segment either fails having
added no writes, or succeeds adding none (only possible when it had no
files), or succeeds adding exactly one blob that a successful `render`
of the final context and tree produced. -/
theorem runFiles_writes (eng : Engine) (parameter : String) :
    ∀ (fds : List FileDescriptor) (isFirst : Bool) (ctx : DocGeneratorContext)
      (files : List FileV) (error : String) (writes : List (String × String))
      (o : GenOutcome),
      runFiles eng parameter fds isFirst ctx files error writes = some o →
      (o.writes = writes ∧ o.ok = false)
      ∨ (o.writes = writes ∧ o.ok = true ∧ fds.length = 0)
      ∨ (∃ w, o.writes = writes ++ [w] ∧ o.ok = true ∧
          render eng o.ctx o.files = .ok w)
  | [], isFirst, ctx, files, error, writes, o => by
    intro h
    simp only [runFiles] at h
    cases h
    exact Or.inr (Or.inl ⟨rfl, rfl, rfl⟩)
  | fd :: rest, isFirst, ctx, files, error, writes, o => by
    intro h
    simp only [runFiles] at h
    cases hg : Generate eng parameter fd isFirst rest.isEmpty ctx files error with
    | none => rw [hg] at h; cases h
    | some g =>
      rw [hg] at h
      simp only [] at h
      have gspec := Generate_spec eng parameter fd isFirst rest.isEmpty ctx files error g hg
      by_cases hok : g.ok = true
      · rw [if_pos hok] at h
        rcases runFiles_writes eng parameter rest false g.ctx g.files g.error
            (writes ++ g.writes) o h with ⟨hw, hf⟩ | ⟨hw, hok', hlen⟩ | ⟨w, hw, hok', hr⟩
        · -- the tail failed, adding nothing: g wrote nothing either,
          -- because a nonempty tail means fd was not the last file
          cases rest with
          | nil =>
            simp only [runFiles] at h
            cases h
            simp at hf
          | cons r rs =>
            have hgw : g.writes = [] := gspec.2.1 rfl
            exact Or.inl ⟨by rw [hw, hgw, List.append_nil], hf⟩
        · -- the tail succeeded without consuming files: rest = [] and
          -- fd was the last file, so g holds the single rendered blob
          cases rest with
          | nil =>
            simp only [runFiles] at h
            cases h
            rcases gspec.2.2 hok rfl with ⟨w, hgw, hrw⟩
            exact Or.inr (Or.inr ⟨w, by rw [hgw], rfl, hrw⟩)
          | cons r rs => simp at hlen
        · -- the tail wrote the final blob: the tail was nonempty, so g
          -- wrote nothing
          cases rest with
          | nil =>
            simp only [runFiles] at h
            cases h
            simp at hw
          | cons r rs =>
            have hgw : g.writes = [] := gspec.2.1 rfl
            rw [hgw, List.append_nil] at hw
            exact Or.inr (Or.inr ⟨w, hw, hok', hr⟩)
      · rw [if_neg hok] at h
        cases h
        have hgw : g.writes = [] := gspec.1 (by simpa using hok)
        exact Or.inl ⟨by rw [hgw, List.append_nil], rfl⟩

/-- C8: output reaches the sink only after a fully successful run — a
run that fails anywhere (configuration, header I/O, render or
serialization) performs no write at all, and a nonempty write list
means the run succeeded and consists of exactly one blob produced by a
successful `render` of the final context and accumulated tree. -/
theorem C8_no_partial_output (eng : Engine) (parameter : String)
    (fds : List FileDescriptor) (o : GenOutcome)
    (h : pluginRun eng parameter fds = some o) :
    (o.ok = false → o.writes = [])
    ∧ (o.writes ≠ [] → o.ok = true ∧
        ∃ w, o.writes = [w] ∧ render eng o.ctx o.files = .ok w) := by
  rcases runFiles_writes eng parameter fds true ⟨"", "", false⟩ [] "" [] o h with
    ⟨hw, hf⟩ | ⟨hw, hok, _⟩ | ⟨w, hw, hok, hr⟩
  · exact ⟨fun _ => hw, fun hne => absurd hw hne⟩
  · exact ⟨fun _ => hw, fun hne => absurd hw hne⟩
  · refine ⟨fun hq => absurd (hok.symm.trans hq) (by decide), fun _ => ⟨hok, w, ?_, hr⟩⟩
    rw [hw]; rfl

/-- A tiny engine for the C8 witness. -/
def witnessEngine : Engine :=
  { formats := ["html"],
    fsTemplates := fun _ => .error "unreadable",
    jsonDoc := fun _ => some "[]",
    renderTpl := fun _ _ => .error ⟨"boom", "", 0⟩,
    sortF := stableSortFields,
    sortE := stableSortValues }

/-- A schema file whose header read fails, used in the C8 witness. -/
def unreadableFile : FileDescriptor :=
  { name := "broken.proto", package := "", source := .error "cannot open",
    message_type := [], enum_type := [] }

/-- C8 witness: a run that fails (the file's header read errors out)
writes nothing to the sink. -/
theorem C8_no_partial_output_witness :
    ∃ o : GenOutcome,
      pluginRun witnessEngine "json,out.inc" [unreadableFile] = some o
      ∧ o.ok = false ∧ o.writes = [] := by
  cases hrun : pluginRun witnessEngine "json,out.inc" [unreadableFile] with
  | none => exact absurd hrun (by decide)
  | some o =>
    have h := C8_no_partial_output witnessEngine "json,out.inc" [unreadableFile] o hrun
    have hok : o.ok = false := by
      have : pluginRun witnessEngine "json,out.inc" [unreadableFile] =
          some ⟨false, ⟨"", "out.inc", false⟩,
            [{ file_name := "broken.proto", file_description := "",
               file_package := "", file_messages := [], file_enums := [] }],
            "broken.proto: cannot open", []⟩ := by
        rw [pluginRun, runFiles, Generate]
        simp [parseParameter, qSplitChar, splitOnCharList, readTemplate, addFile,
          fileDescriptionOf, addMessagesList, addEnums, unreadableFile, witnessEngine]
        decide
      rw [this] at hrun
      cases hrun
      rfl
    exact ⟨o, rfl, hok, h.1 hok⟩

end ProtocGenDoc
